import Mathlib

/-!
Verification development for the Oracle CSV-enrichment server.

This file shallowly embeds the row-processing engine and its helper
functions (`server/routes.ts`: `LLMService.processRows`,
`LLMService.query`, `LLMService.fillPromptTemplate`,
`LLMService.getAutocompleteSuggestions`, the `/api/process` control
switch, and `PromptService.validatePromptTemplate` /
`PromptService.validateOutputColumnName` from `prompt-service`), and
proves the specified behaviours about the embedding.

Modelling conventions:
* JavaScript strings are modelled as Lean `String`; the JS string
  operations used by the code (`trim`, `toLowerCase`, `startsWith`,
  `includes`, first-occurrence `replace`) are re-implemented over
  `List Char` so that every definition evaluates by kernel reduction.
* A `Record<string, string>` row is an association list
  `List (String × String)`; property assignment overwrites in place or
  appends a fresh key at the end, as JS objects do.
* The asynchronous engine is made pure: the in-memory storage for the
  one relevant csvFileId is threaded explicitly (`Storage`), the
  outcome of each Perplexity call is supplied by an oracle
  `gen : Nat → Nat → GenOutcome` (row index, template index), and the
  externally issued pause/resume/stop writes are supplied by
  `env : Nat → Option PStatus`, applied at the engine's row-boundary
  poll points (per the cooperative, single-threaded execution model:
  a control write becomes visible to the engine exactly at its next
  poll).  Message ids and timestamps are not modelled.
* A thrown JS exception is `Except.error` carrying `error.message`.
-/

/-- JS `String.prototype.trim` on a character list. -/
def trimL (cs : List Char) : List Char :=
  ((cs.dropWhile Char.isWhitespace).reverse.dropWhile Char.isWhitespace).reverse

/-- JS `String.prototype.toLowerCase` on a character list. -/
def toLowerL (cs : List Char) : List Char := cs.map Char.toLower

/-- `lHasPre p s`: the list `p` is a prefix of `s` (JS `startsWith`). -/
def lHasPre : List Char → List Char → Bool
  | [], _ => true
  | _ :: _, [] => false
  | p :: ps, c :: cs => p = c && lHasPre ps cs

/-- `lInfix p s`: the list `p` occurs contiguously inside `s`. -/
def lInfix (pat : List Char) : List Char → Bool
  | [] => lHasPre pat []
  | c :: cs => lHasPre pat (c :: cs) || lInfix pat cs

/-- JS `s.trim()`. -/
def jsTrim (s : String) : String := String.mk (trimL s.toList)

/-- JS `s.toLowerCase()`. -/
def jsLower (s : String) : String := String.mk (toLowerL s.toList)

/-- JS `s.startsWith(pre)`. -/
def jsStartsWith (s pre : String) : Bool := lHasPre pre.toList s.toList

/-- JS `s.includes(pat)`. -/
def jsIncludes (s pat : String) : Bool := lInfix pat.toList s.toList

/-- ECMAScript `GetSubstitution` for a plain-string search value (no
capture groups): in the replacement text, `$$` yields `$`, `$&` the
matched text, a dollar followed by the code unit 96 the portion before
the match, a dollar followed by the code unit 39 the portion after the
match; any other dollar (including `$1`…`$9`, since there are no
captures) is literal. -/
def jsReplSubst (rep matched before after : List Char) : List Char :=
  match rep with
  | [] => []
  | c :: rest =>
    if c = '$' then
      match rest with
      | [] => [c]
      | d :: rest2 =>
        if d = '$' then '$' :: jsReplSubst rest2 matched before after
        else if d = '&' then matched ++ jsReplSubst rest2 matched before after
        else if d = Char.ofNat 96 then before ++ jsReplSubst rest2 matched before after
        else if d = Char.ofNat 39 then after ++ jsReplSubst rest2 matched before after
        else '$' :: jsReplSubst (d :: rest2) matched before after
    else c :: jsReplSubst rest matched before after

/-- Worker for `replaceFirst`: `pre` is the reversed portion already
scanned past. -/
def replaceFirstGo (pat rep : List Char) : List Char → List Char → List Char
  | pre, [] =>
    if lHasPre pat [] then pre.reverse ++ jsReplSubst rep pat pre.reverse []
    else pre.reverse
  | pre, c :: cs =>
    if lHasPre pat (c :: cs) then
      pre.reverse ++ jsReplSubst rep pat pre.reverse ((c :: cs).drop pat.length)
        ++ (c :: cs).drop pat.length
    else replaceFirstGo pat rep (c :: pre) cs

/-- JS first-occurrence `String.prototype.replace(pat, rep)` with a plain
string pattern: substitute at the leftmost occurrence of `pat`, or leave
the string unchanged when `pat` does not occur. -/
def replaceFirst (s pat rep : List Char) : List Char := replaceFirstGo pat rep [] s

/-!
## The placeholder scanner

`fillPromptTemplate` and `validatePromptTemplate` both drive the global
regex `/\x7b\x7b([^}]+)\x7d\x7d/g` over the template with repeated
`exec`.  At a given start position the regex matches exactly when the
next two characters are braces, the maximal following run of
non-`'}'` characters is nonempty, and that run is immediately followed
by two closing braces; on failure the scan advances one character, on
success it resumes after the match.  `scanPHGo` implements that scan,
returning the captured group (the run between the braces) of each
match in order; the fuel argument (instantiated with the list length,
which bounds the number of scan steps) keeps the recursion structural
so that concrete instances evaluate by kernel reduction.
-/

def scanPHGo : Nat → List Char → List (List Char)
  | 0, _ => []
  | _ + 1, [] => []
  | _ + 1, [_] => []
  | fuel + 1, c1 :: c2 :: rest =>
    if c1 = '{' ∧ c2 = '{' then
      let name := rest.takeWhile (fun c => c ≠ '}')
      let after := rest.dropWhile (fun c => c ≠ '}')
      if name ≠ [] ∧ after.take 2 = ['}', '}'] then
        name :: scanPHGo fuel (after.drop 2)
      else scanPHGo fuel (c2 :: rest)
    else scanPHGo fuel (c2 :: rest)

/-- All captured placeholder names of a template, in match order. -/
def scanPH (cs : List Char) : List (List Char) := scanPHGo cs.length cs

/-- The literal text matched for a captured name: `"\x7b\x7bname\x7d\x7d"`. -/
def phLit (name : List Char) : List Char :=
  '{' :: '{' :: (name ++ ['}', '}'])

/-- A row: JS object from field name to string value. -/
abbrev Row := List (String × String)

/-- JS property assignment `r[k] = v`: overwrite in place, else append. -/
def setField : Row → String → String → Row
  | [], k, v => [(k, v)]
  | (k', v') :: rest, k, v =>
    if k' = k then (k, v) :: rest else (k', v') :: setField rest k v

/-- The value substituted for a captured name: the row value under the
trimmed name, or the empty string when the row has no such field
(`LLMService.fillPromptTemplate`, the if/else on `row[columnName]`). -/
def substValue (row : Row) (name : List Char) : List Char :=
  match List.lookup (String.mk (trimL name)) row with
  | some v => v.toList
  | none => []

/-- `LLMService.fillPromptTemplate` (routes.ts:1038).  The source walks
the regex matches of the original template and, for each match,
replaces the first occurrence of the matched literal text in the
accumulated `filledPrompt` with the row value (or `""`). -/
def fillPromptTemplate (template : String) (row : Row) : String :=
  String.mk <|
    (scanPH template.toList).foldl
      (fun acc name => replaceFirst acc (phLit name) (substValue row name))
      template.toList

/-- Spec-side template filler (spec §4.1): scans the template exactly
like the code's regex, but substitutes each occurrence in place, so
text introduced by a substitution is never re-scanned nor consumed by
a later substitution.  Used to compare `fillPromptTemplate` against
the specified per-occurrence semantics. -/
def fillSpecGo (row : Row) : Nat → List Char → List Char
  | 0, cs => cs
  | _ + 1, [] => []
  | _ + 1, [c] => [c]
  | fuel + 1, c1 :: c2 :: rest =>
    if c1 = '{' ∧ c2 = '{' then
      let name := rest.takeWhile (fun c => c ≠ '}')
      let after := rest.dropWhile (fun c => c ≠ '}')
      if name ≠ [] ∧ after.take 2 = ['}', '}'] then
        substValue row name ++ fillSpecGo row fuel (after.drop 2)
      else c1 :: fillSpecGo row fuel (c2 :: rest)
    else c1 :: fillSpecGo row fuel (c2 :: rest)

/-- Spec-side template filling on strings. -/
def fillSpec (template : String) (row : Row) : String :=
  String.mk (fillSpecGo row template.toList.length template.toList)

/-!
## Autocomplete matcher
-/

/-- `LLMService.getAutocompleteSuggestions` (routes.ts:1067).  An empty
or whitespace-only partial returns the headers unchanged; otherwise the
partial is trimmed and lowercased, the headers are lowercased (only),
and three filters are concatenated: exact equality, then prefix matches
not already collected, then substring matches not already collected. -/
def getAutocompleteSuggestions (partialInput : String) (availableHeaders : List String) : List String :=
  if jsTrim partialInput = "" then availableHeaders
  else
    let normalizedInput := jsLower (jsTrim partialInput)
    let matches1 := availableHeaders.filter (fun h => jsLower h = normalizedInput)
    let matches2 := matches1 ++ availableHeaders.filter
      (fun h => jsStartsWith (jsLower h) normalizedInput && !(matches1.contains h))
    matches2 ++ availableHeaders.filter
      (fun h => jsIncludes (jsLower h) normalizedInput && !(matches2.contains h))

/-- Spec-side autocomplete matcher, following the claim text: the same
three-tier union but normalizing the partial **and each candidate** via
trim+lowercase.  Used to compare the code against the claimed
normalization. -/
def suggestSpec (partialInput : String) (availableHeaders : List String) : List String :=
  if jsTrim partialInput = "" then availableHeaders
  else
    let np := jsLower (jsTrim partialInput)
    let m1 := availableHeaders.filter (fun h => jsLower (jsTrim h) = np)
    let m2 := m1 ++ availableHeaders.filter
      (fun h => jsStartsWith (jsLower (jsTrim h)) np && !(m1.contains h))
    m2 ++ availableHeaders.filter
      (fun h => jsIncludes (jsLower (jsTrim h)) np && !(m2.contains h))

/-!
## Prompt/output-name validation (`PromptService`)
-/

/-- `PromptService.validatePromptTemplate` (prompt-service): a template
is rejected when it is empty/whitespace-only or when any captured
placeholder name, trimmed, is not among the available headers. -/
def validatePromptTemplate (promptTemplate : String) (availableHeaders : List String) : Bool :=
  if jsTrim promptTemplate = "" then false
  else (scanPH promptTemplate.toList).all
    (fun name => availableHeaders.contains (String.mk (trimL name)))

/-- `PromptService.validateOutputColumnName` (prompt-service). -/
def validateOutputColumnName (name : String) (existingHeaders otherOutputNames : List String) : Bool :=
  if jsTrim name = "" then false
  else if existingHeaders.contains name then false
  else if otherOutputNames.contains name then false
  else if jsIncludes name "," || jsIncludes name "\"" || jsIncludes name "\n" then false
  else true

/-- The validation loop of the `/api/prompts` handler (routes.ts:274):
each config's template is validated against the headers and its output
name against the headers plus the output names accepted so far; the
whole batch is rejected (HTTP 400, before anything is stored and before
any run can use the configs) as soon as one config fails. -/
def validateConfigs (headers : List String) : List (String × String) → List String → Bool
  | [], _ => true
  | (tpl, out) :: rest, seen =>
    if !validatePromptTemplate tpl headers then false
    else if !validateOutputColumnName out headers seen then false
    else validateConfigs headers rest (seen ++ [out])

/-!
## Run state, storage and the `/api/process` control switch
-/

/-- The `status` field of a `ProcessingStatus`. -/
inductive PStatus
  | idle
  | processing
  | paused
  | completed
  | error
deriving DecidableEq, Repr

/-- `ProcessingStatus` (shared/schema): the run-state record kept per
csv file id.  `progress` is the integer percentage; `error` is the
optional error detail. -/
structure ProcStatus where
  status : PStatus
  progress : Nat
  processedRows : Nat
  totalRows : Nat
  error : Option String
deriving DecidableEq, Repr

/-- Console message categories. -/
inductive MsgType
  | info
  | success
  | warning
  | error
deriving DecidableEq, Repr

/-- A console (log) entry; ids and timestamps are not modelled. -/
structure ConsoleMessage where
  type : MsgType
  message : String
deriving DecidableEq, Repr

/-- The slice of `MemStorage` relevant to one csv file id: its
processing status and its append-only console message list. -/
structure Storage where
  procStatus : ProcStatus
  messages : List ConsoleMessage
deriving DecidableEq, Repr

/-- `storage.addConsoleMessage`. -/
def addMsg (st : Storage) (m : ConsoleMessage) : Storage :=
  { st with messages := st.messages ++ [m] }

/-- `storage.updateProcessingStatus`. -/
def setStatus (st : Storage) (p : ProcStatus) : Storage :=
  { st with procStatus := p }

/-- Decidable equality for `Except`, so that concrete runs of the
embedded operations can be checked by `decide`. -/
instance {ε α : Type} [DecidableEq ε] [DecidableEq α] : DecidableEq (Except ε α) := fun x y =>
  match x, y with
  | .ok a, .ok b =>
    if h : a = b then isTrue (by rw [h]) else isFalse (fun hc => by cases hc; exact h rfl)
  | .ok _, .error _ => isFalse (fun hc => by cases hc)
  | .error _, .ok _ => isFalse (fun hc => by cases hc)
  | .error e, .error f =>
    if h : e = f then isTrue (by rw [h]) else isFalse (fun hc => by cases hc; exact h rfl)

/-- The `/api/process` control actions. -/
inductive ProcessAction
  | start
  | pause
  | resume
  | stop
deriving DecidableEq, Repr

/-- The transition logic of the `/api/process` switch (routes.ts:428):
given the current status, either the request is rejected with an HTTP
400 message (`Except.error`), or the new status is written to storage
and returned (`Except.ok`).  (The background kick-off of
`PromptService.processFile` on `start` is outside this transition
function.) -/
def processAction (action : ProcessAction) (status : PStatus) : Except String PStatus :=
  match action with
  | .start =>
    if status = .processing then .error "Processing is already in progress"
    else .ok .processing
  | .pause =>
    if status ≠ .processing then .error "Processing is not in progress"
    else .ok .paused
  | .resume =>
    if status ≠ .paused then .error "Processing is not paused"
    else .ok .processing
  | .stop =>
    if status ≠ .processing ∧ status ≠ .paused then .error "Processing is not active"
    else .ok .idle

/-!
## The LLM client and the row-processing engine
-/

/-- Truncated preview used in `LLMService.query` log lines:
`s.substring(0, 100)` plus an ellipsis when the string is longer. -/
def truncPreview (s : String) : String :=
  String.mk (s.toList.take 100) ++ (if s.toList.length > 100 then "..." else "")

/-- The outcome of one Perplexity transport call, supplied by an
oracle: either the extracted response content, or the message of the
error thrown inside `query`'s try block (e.g. `"API request failed
with status 401 Unauthorized. ..."` for a non-ok HTTP response). -/
inductive GenOutcome
  | ok (text : String)
  | err (msg : String)
deriving DecidableEq, Repr

/-- `LLMService.query` (routes.ts:734): log an info preview of the
prompt; on success log a success preview and return the content; on
failure log `"LLM error: <message>"` and throw that same wrapped
message. -/
def query (prompt : String) (outcome : GenOutcome) (st : Storage) :
    Except String String × Storage :=
  let st1 := addMsg st ⟨.info, "Prompt sent to Perplexity API: " ++ truncPreview prompt⟩
  match outcome with
  | .ok text =>
    (Except.ok text, addMsg st1 ⟨.success, "Received response: " ++ truncPreview text⟩)
  | .err m =>
    let em := "LLM error: " ++ m
    (Except.error em, addMsg st1 ⟨.error, em⟩)

/-- `Math.round(p / t * 100)` for the nonnegative rationals produced by
the engine: round half away from zero, i.e. `⌊(100·p)/t + 1/2⌋`.  (For
`t = 0` the source computes `NaN`; the engine only evaluates this on
paths where at least one row exists, and this model returns `0` in
that unreachable case.) -/
def jsRound100 (p t : Nat) : Nat := (200 * p + t) / (2 * t)

/-- Outcome of the per-row template-config loop of
`LLMService.processRows` (routes.ts:881-967). -/
inductive CellsOut
  | rowDone (enriched : Row) (ec nc : Nat) (st : Storage)
  | rateLimited (st : Storage)
  | raised (msg : String) (st : Storage)
deriving Repr

/-- The inner `for (let i = 0; ...)` loop over template configs for one
row.  `initStatus` is the status snapshot read once at the top of
`processRows` (line 841) and spread into every status update; `p` is
the current `processedRows`; `t` is `totalRows`; `i` is the template
index; `genRow i` is the transport outcome for this row's `i`-th call. -/
def processCells (initStatus : ProcStatus) (row : Row) (genRow : Nat → GenOutcome)
    (p t : Nat) : List (String × String) → Nat → Row → Nat → Nat → Storage → CellsOut
  | [], _, enriched, ec, nc, st => .rowDone enriched ec nc st
  | (template, outputName) :: cfgs, i, enriched, ec, nc, st =>
    let filled := fillPromptTemplate template row
    match query filled (genRow i) st with
    | (Except.ok response, st1) =>
      processCells initStatus row genRow p t cfgs (i + 1)
        (setField enriched outputName response) ec nc st1
    | (Except.error m, st1) =>
      if jsIncludes m "401 Unauthorized" || jsIncludes m "Invalid API key" then
        let st2 := addMsg st1 ⟨.error,
          "Critical Error: Perplexity API Key is invalid or revoked. Processing halted."⟩
        let st3 := setStatus st2 { initStatus with
          status := .error
          progress := jsRound100 p t
          processedRows := p
          totalRows := t
          error := some "API key is invalid or has been revoked" }
        .raised "API request failed with status 401 Unauthorized. \x7b\"error\": \"Invalid API key\"\x7d" st3
      else if jsIncludes m "API rate limit" then
        let st2 := addMsg st1 ⟨.warning, "Rate limit hit. Pausing processing."⟩
        let st3 := setStatus st2 { initStatus with
          status := .paused
          progress := jsRound100 p t
          processedRows := p
          totalRows := t }
        .rateLimited st3
      else if jsIncludes m "No response" || jsIncludes m "timeout" then
        let st2 := addMsg st1 ⟨.warning,
          "Warning: No response for row " ++ toString (p + 1) ++ ", query "
            ++ toString (i + 1) ++ ". Moving to next."⟩
        processCells initStatus row genRow p t cfgs (i + 1)
          (setField enriched outputName "NO_RESPONSE") ec (nc + 1) st2
      else
        let st2 := addMsg st1 ⟨.error,
          "Error: LLM API error for row " ++ toString (p + 1) ++ ", query "
            ++ toString (i + 1) ++ ". Details: " ++ m ++ ". Moving to next."⟩
        processCells initStatus row genRow p t cfgs (i + 1)
          (setField enriched outputName "API_ERROR") (ec + 1) nc st2

/-- The completion log line built after the row loop (routes.ts:983). -/
def completionMessage (p ec nc : Nat) : String :=
  let base := "Processing complete. " ++ toString p ++ " rows processed."
  if ec > 0 || nc > 0 then
    base ++ " (" ++ (if ec > 0 then toString ec ++ " with LLM error" else "")
      ++ (if ec > 0 && nc > 0 then ", " else "")
      ++ (if nc > 0 then toString nc ++ " with no LLM response" else "") ++ ")"
  else base

/-- Outcome of the row loop: a normal return of enriched rows, or an
exception carrying the `processedRows` local at throw time. -/
inductive LoopOut
  | finished (rows : List Row) (st : Storage)
  | raised (msg : String) (p : Nat) (st : Storage)
deriving Repr

/-- An externally issued control write landing at the row boundary
before row `k` is polled: the `/api/process` handlers write
`\x7b...status, status: s\x7d`, preserving every other field of the
current status. -/
def applyEnv (env : Nat → Option PStatus) (k : Nat) (st : Storage) : Storage :=
  match env k with
  | some s => setStatus st { st.procStatus with status := s }
  | none => st

/-- The `for (const row of rows)` loop of `LLMService.processRows`
(routes.ts:852-1005), including the natural-completion tail.  `p` is
`processedRows` (also the absolute index of the next row, since every
earlier row was fully completed); `enriched` is `enrichedRows` so far. -/
def processRowsGo (initStatus : ProcStatus) (cfgs : List (String × String))
    (env : Nat → Option PStatus) (gen : Nat → Nat → GenOutcome) (t : Nat) :
    List Row → Nat → List Row → Nat → Nat → Storage → LoopOut
  | [], p, enriched, ec, nc, st =>
    let st1 := addMsg st ⟨.success, completionMessage p ec nc⟩
    let st2 := setStatus st1 { initStatus with
      status := .completed
      progress := 100
      processedRows := t
      totalRows := t }
    .finished enriched st2
  | row :: rest, p, enriched, ec, nc, st =>
    let st0 := applyEnv env p st
    let currentStatus := st0.procStatus
    if currentStatus.status = .paused then
      .finished enriched (addMsg st0 ⟨.info, "Processing paused by user."⟩)
    else if currentStatus.status = .idle ∨ currentStatus.status = .error then
      .finished enriched (addMsg st0 ⟨.info, "Processing stopped by user or due to an error."⟩)
    else
      match processCells initStatus row (gen p) p t cfgs 0 row ec nc st0 with
      | .rowDone enrichedRow ec1 nc1 st1 =>
        let st2 := setStatus st1 { initStatus with
          status := .processing
          progress := jsRound100 (p + 1) t
          processedRows := p + 1
          totalRows := t }
        processRowsGo initStatus cfgs env gen t rest (p + 1)
          (enriched ++ [enrichedRow]) ec1 nc1 st2
      | .rateLimited st1 => .finished enriched st1
      | .raised m st1 => .raised m p st1

/-- `LLMService.processRows` (routes.ts:828): snapshot the status, set
it to `processing` with zeroed `processedRows`, run the row loop, and
on an uncaught exception log `Processing failed: ...`, set the status
to `error` with the exception message, and re-raise. -/
def processRows (rows : List Row) (promptTemplates outputColumnNames : List String)
    (env : Nat → Option PStatus) (gen : Nat → Nat → GenOutcome) (st : Storage) :
    Except String (List Row) × Storage :=
  let status := st.procStatus
  let totalRows := rows.length
  let st1 := setStatus st { status with
    status := .processing
    processedRows := 0
    totalRows := totalRows }
  match processRowsGo status (promptTemplates.zip outputColumnNames) env gen
      totalRows rows 0 [] 0 0 st1 with
  | .finished out st2 => (Except.ok out, st2)
  | .raised m p st2 =>
    let st3 := addMsg st2 ⟨.error, "Processing failed: " ++ m⟩
    let st4 := setStatus st3 { status with
      status := .error
      progress := jsRound100 p totalRows
      processedRows := p
      totalRows := totalRows
      error := some m }
    (Except.error m, st4)

/-!
## Derived model-level definitions used by the statements
-/

/-- No external control writes during the run. -/
def noControl : Nat → Option PStatus := fun _ => none

/-- One external control write, landing at the row boundary before row
`k` is polled. -/
def controlWriteAt (k : Nat) (s : PStatus) : Nat → Option PStatus :=
  fun j => if j = k then some s else none

/-- A transport outcome that the engine classifies as fatal/auth: the
wrapped message thrown by `query` contains `401 Unauthorized` or
`Invalid API key`. -/
def fatalOutcome : GenOutcome → Bool
  | .ok _ => false
  | .err m =>
    jsIncludes ("LLM error: " ++ m) "401 Unauthorized"
      || jsIncludes ("LLM error: " ++ m) "Invalid API key"

/-- A transport outcome that the engine classifies as rate-limited. -/
def rateOutcome : GenOutcome → Bool
  | .ok _ => false
  | .err m => jsIncludes ("LLM error: " ++ m) "API rate limit"

/-- A transport outcome that interrupts the run (fatal or rate-limit);
everything else is either a success or a per-cell failure and lets the
loop continue. -/
def interrupting (o : GenOutcome) : Bool := fatalOutcome o || rateOutcome o

/-- The value the engine stores in an output cell for a
non-interrupting outcome: the response text, or the sentinel
`NO_RESPONSE` for a no-response/timeout message, or `API_ERROR`. -/
def cellValue : GenOutcome → String
  | .ok text => text
  | .err m =>
    if jsIncludes ("LLM error: " ++ m) "No response"
        || jsIncludes ("LLM error: " ++ m) "timeout" then "NO_RESPONSE"
    else "API_ERROR"

/-- The expected enriched row produced by the template-config loop for
one row when no outcome interrupts: each output field receives
`cellValue` of its outcome, in config order starting at index `i`. -/
def enrichCells (g : Nat → GenOutcome) : List (String × String) → Nat → Row → Row
  | [], _, enriched => enriched
  | (_, out) :: cfgs, i, enriched =>
    enrichCells g cfgs (i + 1) (setField enriched out (cellValue (g i)))

/-- The expected enriched rows of an uninterrupted run over `rows`,
with `p` the absolute index of the first row. -/
def enrichRows (cfgs : List (String × String)) (gen : Nat → Nat → GenOutcome) :
    List Row → Nat → List Row
  | [], _ => []
  | row :: rest, p => enrichCells (gen p) cfgs 0 row :: enrichRows cfgs gen rest (p + 1)

/-- A template is clean when every one of its brace characters belongs
to a well-formed placeholder: the template is an alternation of
brace-free literal text and complete `\x7b\x7bname\x7d\x7d` matches.
Defined by the same scan as `scanPHGo`. -/
def cleanGo : Nat → List Char → Bool
  | 0, cs => cs.isEmpty
  | _ + 1, [] => true
  | _ + 1, [c] => decide (c ≠ '{' ∧ c ≠ '}')
  | fuel + 1, c1 :: c2 :: rest =>
    if c1 = '{' ∧ c2 = '{' then
      let name := rest.takeWhile (fun c => c ≠ '}')
      let after := rest.dropWhile (fun c => c ≠ '}')
      if name ≠ [] ∧ after.take 2 = ['}', '}'] then cleanGo fuel (after.drop 2)
      else false
    else decide (c1 ≠ '{' ∧ c1 ≠ '}') && cleanGo fuel (c2 :: rest)

/-- Clean template, on strings. -/
def cleanTemplate (s : String) : Bool := cleanGo s.toList.length s.toList

/-!
## Theorems
-/

/-- `lHasPre` is reflexive: every list is a prefix of itself. -/
theorem lHasPre_refl (l : List Char) : lHasPre l l = true := by
  induction l with
  | nil => rfl
  | cons c cs ih => simp [lHasPre, ih]

/-- C10: running the engine over an empty row list issues no
generation calls (the only console message added is the completion
entry, while every generation call logs a prompt preview first),
returns an empty enriched-row list, and terminates normally with
status `completed`, `progressPercent` 100, `processedRows` 0 and
`totalRows` 0, emitting a success log entry reporting 0 rows
processed. -/
theorem processRows_empty_run (tpls outs : List String) (env : Nat → Option PStatus)
    (gen : Nat → Nat → GenOutcome) (st : Storage) :
    processRows [] tpls outs env gen st
      = (Except.ok [],
          ⟨{ st.procStatus with
              status := .completed
              progress := 100
              processedRows := 0
              totalRows := 0 },
            st.messages ++ [⟨.success, "Processing complete. 0 rows processed."⟩]⟩) := rfl

/-- C8: a `pause` request is rejected with an invalid-transition error
unless the status is `processing`, `resume` unless `paused`, `stop`
unless `processing` or `paused`, and `start` is rejected while already
`processing`; an accepted request yields the corresponding new status
(pause→paused, resume→processing, stop→idle, start→processing). -/
theorem processAction_transition_validity (s : PStatus) :
    ((∃ m, processAction .pause s = Except.error m) ↔ s ≠ .processing) ∧
    (s = .processing → processAction .pause s = Except.ok .paused) ∧
    ((∃ m, processAction .resume s = Except.error m) ↔ s ≠ .paused) ∧
    (s = .paused → processAction .resume s = Except.ok .processing) ∧
    ((∃ m, processAction .stop s = Except.error m) ↔ (s ≠ .processing ∧ s ≠ .paused)) ∧
    (s = .processing ∨ s = .paused → processAction .stop s = Except.ok .idle) ∧
    ((∃ m, processAction .start s = Except.error m) ↔ s = .processing) ∧
    (s ≠ .processing → processAction .start s = Except.ok .processing) := by
  cases s <;> simp [processAction]

/-- Witness for C8 at concrete statuses. -/
theorem processAction_transition_validity_witness :
    processAction .pause .processing = Except.ok .paused
      ∧ processAction .resume .paused = Except.ok .processing
      ∧ processAction .stop .paused = Except.ok .idle
      ∧ processAction .start .completed = Except.ok .processing :=
  ⟨(processAction_transition_validity .processing).2.1 rfl,
   (processAction_transition_validity .paused).2.2.2.1 rfl,
   (processAction_transition_validity .paused).2.2.2.2.2.1 (Or.inr rfl),
   (processAction_transition_validity .completed).2.2.2.2.2.2.2 (by decide)⟩

/-- Counterexample to C7 as stated: candidates are lowercased but not
trimmed, so a candidate whose trimmed-lowercased form is an exact match
is ranked as a mere substring match.  The code and the claimed
trim+lowercase tiering return different orders on
`("name", ["names", " name"])`. -/
theorem getAutocompleteSuggestions_no_candidate_trim_cex :
    getAutocompleteSuggestions "name" ["names", " name"] = ["names", " name"]
      ∧ suggestSpec "name" ["names", " name"] = [" name", "names"]
      ∧ getAutocompleteSuggestions "name" ["names", " name"]
          ≠ suggestSpec "name" ["names", " name"] := by
  refine ⟨by decide, by decide, by decide⟩

/-- C7 (amended): an empty or whitespace-only partial returns the
candidates unchanged; otherwise, with the partial normalized by
trim+lowercase and each candidate normalized by lowercase only (the
code does not trim candidates), the result is exact matches first,
then remaining candidates whose lowercased form starts with the
normalized partial, then remaining candidates containing it as a
substring — each candidate in its first matching tier only. -/
theorem getAutocompleteSuggestions_tiering (p : String) (cands : List String) :
    (jsTrim p = "" → getAutocompleteSuggestions p cands = cands) ∧
    (jsTrim p ≠ "" →
      getAutocompleteSuggestions p cands =
        cands.filter (fun h => jsLower h = jsLower (jsTrim p))
          ++ cands.filter (fun h =>
              jsStartsWith (jsLower h) (jsLower (jsTrim p))
                && !(decide (jsLower h = jsLower (jsTrim p))))
          ++ cands.filter (fun h =>
              jsIncludes (jsLower h) (jsLower (jsTrim p))
                && !(jsStartsWith (jsLower h) (jsLower (jsTrim p))))) := by
  constructor
  · intro h
    simp [getAutocompleteSuggestions, h]
  · intro hne
    simp only [getAutocompleteSuggestions, if_neg hne, List.append_assoc]
    congr 1
    congr 1
    · apply List.filter_congr
      intro h hmem
      have hcont : (List.filter (fun h => decide (jsLower h = jsLower (jsTrim p))) cands).contains h
          = decide (jsLower h = jsLower (jsTrim p)) := by
        by_cases hx : jsLower h = jsLower (jsTrim p)
        · simp [List.mem_filter, hmem, hx]
        · simp [List.mem_filter, hx]
      rw [hcont]
    · apply List.filter_congr
      intro h hmem
      have hcont :
          (List.filter (fun h => decide (jsLower h = jsLower (jsTrim p))) cands
            ++ List.filter (fun h =>
                jsStartsWith (jsLower h) (jsLower (jsTrim p))
                  && !(List.filter (fun h => decide (jsLower h = jsLower (jsTrim p))) cands).contains h) cands).contains h
          = jsStartsWith (jsLower h) (jsLower (jsTrim p)) := by
        by_cases hx : jsStartsWith (jsLower h) (jsLower (jsTrim p)) = true
        · by_cases he : jsLower h = jsLower (jsTrim p)
          · simp [List.mem_append, List.mem_filter, hmem, hx, he, jsStartsWith, lHasPre_refl]
          · simp [List.mem_append, List.mem_filter, hmem, hx, he]
        · have he : ¬ jsLower h = jsLower (jsTrim p) := by
            intro he
            apply hx
            rw [he]
            exact lHasPre_refl _
          simp [List.mem_append, List.mem_filter, hx, he]
      rw [hcont]

/-- Witness for C7: the amended tiering applied to the specified
example yields exactly `["name", "nationality"]`. -/
theorem getAutocompleteSuggestions_tiering_witness :
    getAutocompleteSuggestions "na" ["name", "nationality", "age", "email"]
      = ["name", "nationality"] := by
  rw [(getAutocompleteSuggestions_tiering "na" ["name", "nationality", "age", "email"]).2
    (by decide)]
  decide

/-- Characterization of a passing output-column-name validation. -/
theorem validateOutputColumnName_eq_true_iff (n : String) (hs os : List String) :
    validateOutputColumnName n hs os = true ↔
      (jsTrim n ≠ "" ∧ ¬ n ∈ hs ∧ ¬ n ∈ os ∧ jsIncludes n "," = false
        ∧ jsIncludes n "\"" = false ∧ jsIncludes n "\n" = false) := by
  unfold validateOutputColumnName
  split_ifs with h1 h2 h3 h4 <;> simp_all
  intro ha hb
  rcases h4 with (h | h) | h <;> simp_all

/-- A batch is rejected as soon as some config has an invalid template. -/
theorem validateConfigs_false_of_bad_template (headers : List String) :
    ∀ (cfgs : List (String × String)) (seen : List String),
      (∃ cfg ∈ cfgs, validatePromptTemplate cfg.1 headers = false) →
      validateConfigs headers cfgs seen = false := by
  intro cfgs
  induction cfgs with
  | nil => rintro seen ⟨cfg, hmem, hbad⟩; simp at hmem
  | cons c rest ih =>
    obtain ⟨t, o⟩ := c
    rintro seen ⟨cfg, hmem, hbad⟩
    rcases List.mem_cons.mp hmem with hhd | htl
    · subst hhd
      simp only [validateConfigs]
      simp [hbad]
    · simp only [validateConfigs]
      split_ifs with h1 h2
      · rfl
      · rfl
      · exact ih _ ⟨cfg, htl, hbad⟩

/-- A batch is rejected as soon as some config's output name is
empty/whitespace, collides with an existing header, or contains a
comma, double quote or newline. -/
theorem validateConfigs_false_of_bad_output (headers : List String) :
    ∀ (cfgs : List (String × String)) (seen : List String),
      (∃ cfg ∈ cfgs, jsTrim cfg.2 = "" ∨ cfg.2 ∈ headers
        ∨ jsIncludes cfg.2 "," = true ∨ jsIncludes cfg.2 "\"" = true
        ∨ jsIncludes cfg.2 "\n" = true) →
      validateConfigs headers cfgs seen = false := by
  intro cfgs
  induction cfgs with
  | nil => rintro seen ⟨cfg, hmem, hbad⟩; simp at hmem
  | cons c rest ih =>
    obtain ⟨t, o⟩ := c
    rintro seen ⟨cfg, hmem, hbad⟩
    rcases List.mem_cons.mp hmem with hhd | htl
    · subst hhd
      have hko : validateOutputColumnName o headers seen = false := by
        rw [Bool.eq_false_iff]
        intro hok
        have := (validateOutputColumnName_eq_true_iff o headers seen).mp hok
        rcases hbad with hb | hb | hb | hb | hb <;> simp_all
      simp only [validateConfigs]
      split_ifs with h1 h2
      · rfl
      · rfl
      · exact absurd (by simp [hko]) h2
    · simp only [validateConfigs]
      split_ifs with h1 h2
      · rfl
      · rfl
      · exact ih _ ⟨cfg, htl, hbad⟩

/-- A batch is rejected when the submitted output names (together with
the already-seen ones) contain a duplicate. -/
theorem validateConfigs_false_of_dup (headers : List String) :
    ∀ (cfgs : List (String × String)) (seen : List String),
      seen.Nodup → ¬ (seen ++ cfgs.map Prod.snd).Nodup →
      validateConfigs headers cfgs seen = false := by
  intro cfgs
  induction cfgs with
  | nil => intro seen hsn hdup; simp at hdup; exact absurd hsn hdup
  | cons c rest ih =>
    obtain ⟨t, o⟩ := c
    intro seen hsn hdup
    simp only [validateConfigs]
    split_ifs with h1 h2
    · rfl
    · rfl
    · have hok : validateOutputColumnName o headers seen = true := by
        cases hb : validateOutputColumnName o headers seen with
        | false => exact absurd (by simp [hb]) h2
        | true => rfl
      have hno : ¬ o ∈ seen :=
        ((validateOutputColumnName_eq_true_iff o headers seen).mp hok).2.2.1
      apply ih (seen ++ [o])
      · simp [List.nodup_append, hsn, List.disjoint_singleton, hno]
      · intro hnd
        apply hdup
        simpa [List.append_assoc] using hnd

/-- C9: an output column name that is empty/whitespace-only, equals an
existing header, duplicates another output name of the batch, or
contains a comma, double quote or newline is rejected, and a template
whose trimmed placeholder name is not among the table headers is
rejected; the `/api/prompts` handler runs these checks over the whole
batch (threading previously accepted output names) and rejects the
submission before storing anything, hence before any run can use it. -/
theorem prompt_config_validation (n tpl : String) (headers others seen : List String)
    (cfgs : List (String × String)) :
    (jsTrim n = "" → validateOutputColumnName n headers others = false) ∧
    (n ∈ headers → validateOutputColumnName n headers others = false) ∧
    (n ∈ others → validateOutputColumnName n headers others = false) ∧
    ((jsIncludes n "," = true ∨ jsIncludes n "\"" = true ∨ jsIncludes n "\n" = true) →
      validateOutputColumnName n headers others = false) ∧
    ((∃ nm ∈ scanPH tpl.toList, ¬ (String.mk (trimL nm)) ∈ headers) →
      validatePromptTemplate tpl headers = false) ∧
    ((∃ cfg ∈ cfgs, validatePromptTemplate cfg.1 headers = false) →
      validateConfigs headers cfgs seen = false) ∧
    ((∃ cfg ∈ cfgs, jsTrim cfg.2 = "" ∨ cfg.2 ∈ headers
        ∨ jsIncludes cfg.2 "," = true ∨ jsIncludes cfg.2 "\"" = true
        ∨ jsIncludes cfg.2 "\n" = true) →
      validateConfigs headers cfgs seen = false) ∧
    (¬ (cfgs.map Prod.snd).Nodup → validateConfigs headers cfgs [] = false) := by
  refine ⟨?_, ?_, ?_, ?_, ?_, ?_, ?_, ?_⟩
  · intro h
    rw [Bool.eq_false_iff]
    intro hok
    exact absurd h ((validateOutputColumnName_eq_true_iff n headers others).mp hok).1
  · intro h
    rw [Bool.eq_false_iff]
    intro hok
    exact ((validateOutputColumnName_eq_true_iff n headers others).mp hok).2.1 h
  · intro h
    rw [Bool.eq_false_iff]
    intro hok
    exact ((validateOutputColumnName_eq_true_iff n headers others).mp hok).2.2.1 h
  · intro h
    rw [Bool.eq_false_iff]
    intro hok
    have hc := (validateOutputColumnName_eq_true_iff n headers others).mp hok
    rcases h with hb | hb | hb <;> simp_all
  · rintro ⟨nm, hmem, hnot⟩
    unfold validatePromptTemplate
    split_ifs with h1
    · rfl
    · rw [Bool.eq_false_iff]
      intro hall
      rw [List.all_eq_true] at hall
      exact hnot (by simpa using hall nm hmem)
  · exact validateConfigs_false_of_bad_template headers cfgs seen
  · exact validateConfigs_false_of_bad_output headers cfgs seen
  · intro h
    exact validateConfigs_false_of_dup headers cfgs [] (by simp) (by simpa using h)

/-- Witness for C9 at concrete inputs. -/
theorem prompt_config_validation_witness :
    validateOutputColumnName "name" ["name", "age"] [] = false
      ∧ validateOutputColumnName "out" ["name"] ["out"] = false
      ∧ validateOutputColumnName "o,ut" ["name"] [] = false
      ∧ validatePromptTemplate "q \x7b\x7bcity\x7d\x7d" ["name"] = false
      ∧ validateConfigs ["name"] [("q", "o1"), ("q", "o1")] [] = false :=
  ⟨(prompt_config_validation "name" "" ["name", "age"] [] [] []).2.1 (by decide),
   (prompt_config_validation "out" "" ["name"] ["out"] [] []).2.2.1 (by decide),
   (prompt_config_validation "o,ut" "" ["name"] [] [] []).2.2.2.1 (Or.inl (by decide)),
   (prompt_config_validation "" "q \x7b\x7bcity\x7d\x7d" ["name"] [] [] []).2.2.2.2.1
     ⟨['c', 'i', 't', 'y'], by decide, by decide⟩,
   (prompt_config_validation "" "" ["name"] [] [] [("q", "o1"), ("q", "o1")]).2.2.2.2.2.2.2
     (by decide)⟩

/-- Counterexample to C4 as stated: when the engine's initial status
snapshot carries an error detail from an earlier failed run, the
rate-limit update spreads that snapshot and the resulting `paused`
Run State still carries the stale error detail, contradicting "no
error detail". -/
theorem processRows_rate_limit_stale_error_cex :
    (processRows [[("a", "1")]] ["q"] ["out"] noControl
        (fun _ _ => .err "API rate limit exceeded")
        ⟨⟨.idle, 0, 0, 1, some "previous run failed"⟩, []⟩).2.procStatus.status = .paused
      ∧ (processRows [[("a", "1")]] ["q"] ["out"] noControl
          (fun _ _ => .err "API rate limit exceeded")
          ⟨⟨.idle, 0, 0, 1, some "previous run failed"⟩, []⟩).2.procStatus.error
        = some "previous run failed"
      ∧ (processRows [[("a", "1")]] ["q"] ["out"] noControl
          (fun _ _ => .err "API rate limit exceeded")
          ⟨⟨.idle, 0, 0, 1, some "previous run failed"⟩, []⟩).2.procStatus.error ≠ none := by
  refine ⟨by decide, by decide, by decide⟩

/-- Counterexample to C5 as stated: a row value containing the literal
text of a later placeholder is consumed by that placeholder's
substitution, so the later occurrence in the original template is not
substituted.  On template `\x7b\x7ba\x7d\x7d \x7b\x7bb\x7d\x7d` with
`a = "\x7b\x7bb\x7d\x7d"`, `b = "X"`, the code yields
`X \x7b\x7bb\x7d\x7d` while per-occurrence substitution specifies
`\x7b\x7bb\x7d\x7d X`.  The second conjunct group shows that
restricting only the row values does not rescue the claim: with
brace-free values (the empty string and `V`) but a template whose
stray braces surround the first placeholder, template
`x\x7b\x7bg\x7d\x7b\x7ba\x7d\x7d\x7d\x7b\x7bg\x7d\x7d` with `a = ""`,
`g = "V"`, substituting `a` by the empty string splices the
surrounding stray braces into a new `\x7b\x7bg\x7d\x7d` literal, which
the second substitution then consumes; the code yields
`xV\x7b\x7bg\x7d\x7d` while per-occurrence substitution specifies
`x\x7b\x7bg\x7d\x7dV`.  Hence the amended statement restricts both the
template (clean) and the values (brace- and dollar-free). -/
theorem fillPromptTemplate_value_injection_cex :
    (fillPromptTemplate "\x7b\x7ba\x7d\x7d \x7b\x7bb\x7d\x7d"
        [("a", "\x7b\x7bb\x7d\x7d"), ("b", "X")] = "X \x7b\x7bb\x7d\x7d"
      ∧ fillSpec "\x7b\x7ba\x7d\x7d \x7b\x7bb\x7d\x7d"
          [("a", "\x7b\x7bb\x7d\x7d"), ("b", "X")] = "\x7b\x7bb\x7d\x7d X"
      ∧ fillPromptTemplate "\x7b\x7ba\x7d\x7d \x7b\x7bb\x7d\x7d"
            [("a", "\x7b\x7bb\x7d\x7d"), ("b", "X")]
          ≠ fillSpec "\x7b\x7ba\x7d\x7d \x7b\x7bb\x7d\x7d"
            [("a", "\x7b\x7bb\x7d\x7d"), ("b", "X")])
    ∧ (fillPromptTemplate "x\x7b\x7bg\x7d\x7b\x7ba\x7d\x7d\x7d\x7b\x7bg\x7d\x7d"
          [("a", ""), ("g", "V")] = "xV\x7b\x7bg\x7d\x7d"
        ∧ fillSpec "x\x7b\x7bg\x7d\x7b\x7ba\x7d\x7d\x7d\x7b\x7bg\x7d\x7d"
            [("a", ""), ("g", "V")] = "x\x7b\x7bg\x7d\x7dV"
        ∧ fillPromptTemplate "x\x7b\x7bg\x7d\x7b\x7ba\x7d\x7d\x7d\x7b\x7bg\x7d\x7d"
              [("a", ""), ("g", "V")]
            ≠ fillSpec "x\x7b\x7bg\x7d\x7b\x7ba\x7d\x7d\x7d\x7b\x7bg\x7d\x7d"
              [("a", ""), ("g", "V")]) := by
  refine ⟨⟨by decide, by decide, by decide⟩, by decide, by decide, by decide⟩

/-- Counterexample to C6 as stated: text introduced by an earlier
substitution is treated as a placeholder by a later substitution.  On
`\x7b\x7bx\x7d\x7d\x7b\x7by\x7d\x7d` with `x = "\x7b\x7by\x7d\x7d"`,
`y = "Z"`, the copy of `\x7b\x7by\x7d\x7d` introduced by substituting
`x` is the one replaced by `Z`, and the original `\x7b\x7by\x7d\x7d`
occurrence survives in the output. -/
theorem fillPromptTemplate_reexpansion_cex :
    fillPromptTemplate "\x7b\x7bx\x7d\x7d\x7b\x7by\x7d\x7d"
        [("x", "\x7b\x7by\x7d\x7d"), ("y", "Z")] = "Z\x7b\x7by\x7d\x7d"
      ∧ fillSpec "\x7b\x7bx\x7d\x7d\x7b\x7by\x7d\x7d"
          [("x", "\x7b\x7by\x7d\x7d"), ("y", "Z")] = "\x7b\x7by\x7d\x7dZ"
      ∧ fillPromptTemplate "\x7b\x7bx\x7d\x7d\x7b\x7by\x7d\x7d"
            [("x", "\x7b\x7by\x7d\x7d"), ("y", "Z")]
          ≠ fillSpec "\x7b\x7bx\x7d\x7d\x7b\x7by\x7d\x7d"
            [("x", "\x7b\x7by\x7d\x7d"), ("y", "Z")] := by
  refine ⟨by decide, by decide, by decide⟩

/-- `setField` stores the assigned value under the assigned key. -/
theorem lookup_setField_self (r : Row) (k v : String) :
    List.lookup k (setField r k v) = some v := by
  induction r with
  | nil => simp [setField]
  | cons kv rest ih =>
    obtain ⟨k', v'⟩ := kv
    by_cases h : k' = k
    · subst h
      simp [setField]
    · simp only [setField, if_neg h]
      rw [List.lookup_cons]
      have : (k == k') = false := by simp [Ne.symm h]
      simp [this, ih]

/-- `setField` leaves every other key unchanged. -/
theorem lookup_setField_ne (r : Row) (k v f : String) (h : f ≠ k) :
    List.lookup f (setField r k v) = List.lookup f r := by
  induction r with
  | nil =>
    have hfk : (f == k) = false := by simp [h]
    simp [setField, List.lookup_cons, hfk]
  | cons kv rest ih =>
    obtain ⟨k', v'⟩ := kv
    by_cases hk : k' = k
    · subst hk
      rw [show setField ((k', v') :: rest) k' v = (k', v) :: rest from by simp [setField]]
      rw [List.lookup_cons, List.lookup_cons]
      have hfk : (f == k') = false := by simp [h]
      simp [hfk]
    · rw [show setField ((k', v') :: rest) k v = (k', v') :: setField rest k v from by
        simp [setField, hk]]
      rw [List.lookup_cons, List.lookup_cons]
      cases hfk : f == k' <;> simp [hfk, ih]

/-- Fields outside the processed output names are untouched by
`enrichCells`. -/
theorem enrichCells_lookup_notin (g : Nat → GenOutcome) :
    ∀ (cfgs : List (String × String)) (i : Nat) (enr : Row) (f : String),
      ¬ f ∈ cfgs.map Prod.snd →
      List.lookup f (enrichCells g cfgs i enr) = List.lookup f enr := by
  intro cfgs
  induction cfgs with
  | nil => intro i enr f _; rfl
  | cons c rest ih =>
    obtain ⟨t, o⟩ := c
    intro i enr f hf
    simp only [List.map_cons, List.mem_cons] at hf
    push_neg at hf
    simp only [enrichCells]
    rw [ih _ _ _ hf.2, lookup_setField_ne _ _ _ _ hf.1]

/-- Each processed output field of `enrichCells` holds the `cellValue`
of its outcome, provided the output names are pairwise distinct. -/
theorem enrichCells_lookup_out (g : Nat → GenOutcome) :
    ∀ (cfgs : List (String × String)) (i : Nat) (enr : Row) (j : Nat),
      j < cfgs.length → (cfgs.map Prod.snd).Nodup →
      List.lookup ((cfgs.map Prod.snd).getD j "") (enrichCells g cfgs i enr)
        = some (cellValue (g (i + j))) := by
  intro cfgs
  induction cfgs with
  | nil => intro i enr j hj _; simp at hj
  | cons c rest ih =>
    obtain ⟨t, o⟩ := c
    intro i enr j hj hnd
    simp only [List.map_cons, List.nodup_cons] at hnd
    match j with
    | 0 =>
      simp only [List.map_cons, List.getD_cons_zero]
      simp only [enrichCells]
      rw [enrichCells_lookup_notin g rest (i + 1) _ o hnd.1]
      simp [lookup_setField_self]
    | j' + 1 =>
      simp only [List.map_cons, List.getD_cons_succ]
      simp only [enrichCells]
      rw [ih (i + 1) _ j' (by simpa using hj) hnd.2]
      have harith : i + 1 + j' = i + (j' + 1) := by omega
      rw [harith]

/-- `enrichRows` produces one enriched row per input row. -/
theorem enrichRows_length (cfgs : List (String × String)) (gen : Nat → Nat → GenOutcome) :
    ∀ (rows : List Row) (p : Nat), (enrichRows cfgs gen rows p).length = rows.length := by
  intro rows
  induction rows with
  | nil => intro p; rfl
  | cons row rest ih => intro p; simp [enrichRows, ih]

/-- The `r`-th enriched row of `enrichRows`. -/
theorem enrichRows_getD (cfgs : List (String × String)) (gen : Nat → Nat → GenOutcome) :
    ∀ (rows : List Row) (p r : Nat), r < rows.length →
      (enrichRows cfgs gen rows p).getD r [] = enrichCells (gen (p + r)) cfgs 0 (rows.getD r []) := by
  intro rows
  induction rows with
  | nil => intro p r hr; simp at hr
  | cons row rest ih =>
    intro p r hr
    match r with
    | 0 => simp [enrichRows]
    | r' + 1 =>
      simp only [enrichRows, List.getD_cons_succ]
      rw [ih (p + 1) r' (by simpa using hr)]
      have harith : p + 1 + r' = p + (r' + 1) := by omega
      rw [harith]

/-- `addMsg` does not change the processing status. -/
theorem addMsg_procStatus (st : Storage) (m : ConsoleMessage) :
    (addMsg st m).procStatus = st.procStatus := rfl

/-- Template-config loop over a prefix of non-interrupting outcomes:
the loop reaches the remaining configs carrying the expected enriched
row and leaves the processing status untouched. -/
theorem processCells_append (initStatus : ProcStatus) (row : Row) (genRow : Nat → GenOutcome)
    (p t : Nat) :
    ∀ (cfgs1 cfgs2 : List (String × String)) (i : Nat) (enr : Row) (ec nc : Nat) (st : Storage),
      (∀ j, j < cfgs1.length → interrupting (genRow (i + j)) = false) →
      ∃ ec1 nc1 st1,
        processCells initStatus row genRow p t (cfgs1 ++ cfgs2) i enr ec nc st
          = processCells initStatus row genRow p t cfgs2 (i + cfgs1.length)
              (enrichCells genRow cfgs1 i enr) ec1 nc1 st1
          ∧ st1.procStatus = st.procStatus := by
  intro cfgs1
  induction cfgs1 with
  | nil =>
    intro cfgs2 i enr ec nc st h
    exact ⟨ec, nc, st, by simp [enrichCells], rfl⟩
  | cons c rest ih =>
    obtain ⟨tpl, out⟩ := c
    intro cfgs2 i enr ec nc st h
    have h0 : interrupting (genRow i) = false := by simpa using h 0 (by simp)
    have hrest : ∀ j, j < rest.length →
        interrupting (genRow (i + 1 + j)) = false := by
      intro j hj
      have hh := h (j + 1) (by simp; omega)
      have harith : i + (j + 1) = i + 1 + j := by omega
      rwa [harith] at hh
    cases hg : genRow i with
    | ok text =>
      obtain ⟨ec1, nc1, st1, heq, hps⟩ :=
        ih cfgs2 (i + 1) (setField enr out text) ec nc
          (addMsg (addMsg st ⟨.info, "Prompt sent to Perplexity API: "
              ++ truncPreview (fillPromptTemplate tpl row)⟩)
            ⟨.success, "Received response: " ++ truncPreview text⟩) hrest
      refine ⟨ec1, nc1, st1, ?_, by simp [hps, addMsg_procStatus]⟩
      rw [show ((tpl, out) :: rest) ++ cfgs2 = (tpl, out) :: (rest ++ cfgs2) from rfl]
      simp only [processCells, query, hg]
      rw [heq]
      have harith : i + 1 + rest.length = i + (rest.length + 1) := by omega
      simp only [enrichCells, cellValue, hg, harith, List.length_cons]
    | err m =>
      have hfr : fatalOutcome (GenOutcome.err m) = false
          ∧ rateOutcome (GenOutcome.err m) = false := by
        have hx := h0
        rw [hg] at hx
        simp only [interrupting, Bool.or_eq_false_iff] at hx
        exact hx
      have hf1 : (jsIncludes ("LLM error: " ++ m) "401 Unauthorized"
          || jsIncludes ("LLM error: " ++ m) "Invalid API key") = false := by
        have := hfr.1
        simpa [fatalOutcome] using this
      have hf2 : jsIncludes ("LLM error: " ++ m) "API rate limit" = false := by
        have := hfr.2
        simpa [rateOutcome] using this
      cases hnr : (jsIncludes ("LLM error: " ++ m) "No response"
          || jsIncludes ("LLM error: " ++ m) "timeout") with
      | true =>
        obtain ⟨ec1, nc1, st1, heq, hps⟩ :=
          ih cfgs2 (i + 1) (setField enr out "NO_RESPONSE") ec (nc + 1)
            (addMsg (addMsg (addMsg st ⟨.info, "Prompt sent to Perplexity API: "
                  ++ truncPreview (fillPromptTemplate tpl row)⟩)
                ⟨.error, "LLM error: " ++ m⟩)
              ⟨.warning, "Warning: No response for row " ++ toString (p + 1) ++ ", query "
                ++ toString (i + 1) ++ ". Moving to next."⟩) hrest
        refine ⟨ec1, nc1, st1, ?_, by simp [hps, addMsg_procStatus]⟩
        rw [show ((tpl, out) :: rest) ++ cfgs2 = (tpl, out) :: (rest ++ cfgs2) from rfl]
        simp only [processCells, query, hg, hf1, hf2, hnr, Bool.false_eq_true, if_false, if_true]
        rw [heq]
        have harith : i + 1 + rest.length = i + (rest.length + 1) := by omega
        simp only [enrichCells, cellValue, hg, hnr, harith, List.length_cons, if_true]
      | false =>
        obtain ⟨ec1, nc1, st1, heq, hps⟩ :=
          ih cfgs2 (i + 1) (setField enr out "API_ERROR") (ec + 1) nc
            (addMsg (addMsg (addMsg st ⟨.info, "Prompt sent to Perplexity API: "
                  ++ truncPreview (fillPromptTemplate tpl row)⟩)
                ⟨.error, "LLM error: " ++ m⟩)
              ⟨.error, "Error: LLM API error for row " ++ toString (p + 1) ++ ", query "
                ++ toString (i + 1) ++ ". Details: " ++ ("LLM error: " ++ m)
                ++ ". Moving to next."⟩) hrest
        refine ⟨ec1, nc1, st1, ?_, by simp [hps, addMsg_procStatus]⟩
        rw [show ((tpl, out) :: rest) ++ cfgs2 = (tpl, out) :: (rest ++ cfgs2) from rfl]
        simp only [processCells, query, hg, hf1, hf2, hnr, Bool.false_eq_true, if_false, if_true]
        rw [heq]
        have harith : i + 1 + rest.length = i + (rest.length + 1) := by omega
        simp only [enrichCells, cellValue, hg, hnr, harith, List.length_cons, Bool.false_eq_true,
          if_false]

/-- Template-config loop with only non-interrupting outcomes: the row
completes with the expected enriched row, status untouched. -/
theorem processCells_clean (initStatus : ProcStatus) (row : Row) (genRow : Nat → GenOutcome)
    (p t : Nat) (cfgs : List (String × String)) (i : Nat) (enr : Row) (ec nc : Nat)
    (st : Storage)
    (h : ∀ j, j < cfgs.length → interrupting (genRow (i + j)) = false) :
    ∃ ec1 nc1 st1,
      processCells initStatus row genRow p t cfgs i enr ec nc st
        = .rowDone (enrichCells genRow cfgs i enr) ec1 nc1 st1
        ∧ st1.procStatus = st.procStatus := by
  obtain ⟨ec1, nc1, st1, heq, hps⟩ :=
    processCells_append initStatus row genRow p t cfgs [] i enr ec nc st h
  refine ⟨ec1, nc1, st1, ?_, hps⟩
  rw [show cfgs ++ ([] : List (String × String)) = cfgs from by simp] at heq
  rw [heq]
  rfl

/-- Row loop over a prefix of rows with no control writes and no
interrupting outcomes: the loop reaches the remaining rows with the
expected enriched rows accumulated, the status left at `processing`
with `processedRows` advanced past the prefix. -/
theorem processRowsGo_clean_prefix (initStatus : ProcStatus) (cfgs : List (String × String))
    (env : Nat → Option PStatus) (gen : Nat → Nat → GenOutcome) (t : Nat) :
    ∀ (rows1 rows2 : List Row) (p : Nat) (enr : List Row) (ec nc : Nat) (st : Storage),
      (∀ j, p ≤ j → j < p + rows1.length → env j = none) →
      (∀ r i, p ≤ r → r < p + rows1.length → interrupting (gen r i) = false) →
      st.procStatus.status = .processing →
      st.procStatus.processedRows = p →
      ∃ ec1 nc1 st1,
        processRowsGo initStatus cfgs env gen t (rows1 ++ rows2) p enr ec nc st
          = processRowsGo initStatus cfgs env gen t rows2 (p + rows1.length)
              (enr ++ enrichRows cfgs gen rows1 p) ec1 nc1 st1
          ∧ st1.procStatus.status = .processing
          ∧ st1.procStatus.processedRows = p + rows1.length := by
  intro rows1
  induction rows1 with
  | nil =>
    intro rows2 p enr ec nc st _ _ h1 h2
    exact ⟨ec, nc, st, by simp [enrichRows], h1, by simpa using h2⟩
  | cons row rest ih =>
    intro rows2 p enr ec nc st henv hgen hst hpr
    have henv0 : env p = none := henv p le_rfl (by simp)
    have happ : applyEnv env p st = st := by simp [applyEnv, henv0]
    have hcellsh : ∀ j, j < cfgs.length → interrupting (gen p (0 + j)) = false := by
      intro j _
      exact hgen p (0 + j) le_rfl (by simp)
    obtain ⟨ec1, nc1, st1, hcells, hps⟩ :=
      processCells_clean initStatus row (gen p) p t cfgs 0 row ec nc st hcellsh
    have hnotpaused : (st.procStatus.status = PStatus.paused) = False := by
      simp [hst]
    have hnotidle : (st.procStatus.status = PStatus.idle
        ∨ st.procStatus.status = PStatus.error) = False := by
      simp [hst]
    rw [show (row :: rest) ++ rows2 = row :: (rest ++ rows2) from rfl]
    simp only [processRowsGo, happ, hnotpaused, hnotidle, if_false, hcells]
    obtain ⟨ec2, nc2, st2, heq, hs2, hp2⟩ :=
      ih rows2 (p + 1) (enr ++ [enrichCells (gen p) cfgs 0 row]) ec1 nc1
        (setStatus st1 { initStatus with
          status := .processing
          progress := jsRound100 (p + 1) t
          processedRows := p + 1
          totalRows := t })
        (fun j hj1 hj2 => henv j (by omega) (by simp; omega))
        (fun r i hr1 hr2 => hgen r i (by omega) (by simp; omega))
        (by simp [setStatus])
        (by simp [setStatus])
    refine ⟨ec2, nc2, st2, ?_, hs2, by
      rw [hp2]
      simp [List.length_cons]
      omega⟩
    rw [heq]
    have harith : p + 1 + rest.length = p + (rest.length + 1) := by omega
    simp [enrichRows, harith]

/-- A control write of `paused` (or of `idle`/`error`, i.e. stop)
landing at the boundary before row `k` makes the engine return at that
boundary: the run of `processRows` finishes with exactly the `k`
fully-completed enriched rows, the written status, `processedRows = k`,
and the corresponding info log entry appended last. -/
theorem processRows_control_interrupt
    (rows : List Row) (tpls outs : List String) (gen : Nat → Nat → GenOutcome)
    (st : Storage) (k : Nat) (s : PStatus) (msg : String) (hk : k < rows.length)
    (hclean : ∀ r i, r < k → interrupting (gen r i) = false)
    (hs : (s = .paused ∧ msg = "Processing paused by user.")
      ∨ ((s = .idle ∨ s = .error)
          ∧ msg = "Processing stopped by user or due to an error.")) :
    (∃ res, (processRows rows tpls outs (controlWriteAt k s) gen st).1 = Except.ok res
        ∧ res.length = k)
      ∧ (processRows rows tpls outs (controlWriteAt k s) gen st).2.procStatus.status = s
      ∧ (processRows rows tpls outs (controlWriteAt k s) gen st).2.procStatus.processedRows = k
      ∧ (processRows rows tpls outs (controlWriteAt k s) gen st).2.messages.getLast?
          = some ⟨.info, msg⟩ := by
  obtain ⟨l1, l2, rfl, hl1⟩ : ∃ l1 l2, rows = l1 ++ l2 ∧ l1.length = k :=
    ⟨rows.take k, rows.drop k, (List.take_append_drop k rows).symm, by
      simp [List.length_take]
      omega⟩
  match l2, hk with
  | [], hk => simp [hl1] at hk
  | row :: rest, hk =>
    obtain ⟨ec1, nc1, st1, hloop, hs1, hp1⟩ :=
      processRowsGo_clean_prefix st.procStatus (tpls.zip outs) (controlWriteAt k s) gen
        (l1 ++ row :: rest).length l1 (row :: rest) 0 [] 0 0
        (setStatus st { st.procStatus with
          status := .processing
          processedRows := 0
          totalRows := (l1 ++ row :: rest).length })
        (fun j _ hj => by
          simp only [controlWriteAt, if_neg (by omega : ¬ j = k)])
        (fun r i _ hr => hclean r i (by omega))
        (by simp [setStatus])
        (by simp [setStatus])
    simp only [Nat.zero_add, List.nil_append] at hloop hp1
    have happ : applyEnv (controlWriteAt k s) l1.length st1
        = setStatus st1 { st1.procStatus with status := s } := by
      simp [applyEnv, controlWriteAt, hl1]
    have hstep : processRowsGo st.procStatus (tpls.zip outs) (controlWriteAt k s) gen
        (l1 ++ row :: rest).length (row :: rest) l1.length
        (enrichRows (tpls.zip outs) gen l1 0) ec1 nc1 st1
        = .finished (enrichRows (tpls.zip outs) gen l1 0)
            (addMsg (setStatus st1 { st1.procStatus with status := s }) ⟨.info, msg⟩) := by
      rcases hs with ⟨hs, hmsg⟩ | ⟨hs, hmsg⟩
      · subst hs
        subst hmsg
        simp [processRowsGo, happ, setStatus]
      · subst hmsg
        have hsp : (s = PStatus.paused) = False := by
          rcases hs with h | h <;> subst h <;> simp
        have hsi : (s = PStatus.idle ∨ s = PStatus.error) = True := by
          simp [hs]
        simp only [processRowsGo, happ, List.nil_append]
        simp [setStatus, hsp, hsi]
    simp only [processRows, hloop, hstep]
    refine ⟨⟨enrichRows (tpls.zip outs) gen l1 0, rfl, by
      rw [enrichRows_length]
      exact hl1⟩, ?_, ?_, ?_⟩
    · simp [addMsg, setStatus]
    · simp only [addMsg_procStatus]
      simp [setStatus, hp1, hl1]
    · simp [addMsg]

/-- C1: an external pause (resp. stop) write issued while a row is in
flight takes effect at the next row boundary: with the write landing
at the boundary before row `k` (each earlier row having completed
normally), the engine stops iterating there, emits an info log entry,
returns exactly the `k` fully-completed enriched rows, and the Run
State ends at `paused` (resp. `idle`) with `processedRows = k`, the
count of fully-completed rows, never a partial count. -/
theorem processRows_pause_stop_row_boundary
    (rows : List Row) (tpls outs : List String) (gen : Nat → Nat → GenOutcome)
    (st : Storage) (k : Nat) (hk : k < rows.length)
    (hclean : ∀ r i, r < k → interrupting (gen r i) = false) :
    ((∃ res, (processRows rows tpls outs (controlWriteAt k .paused) gen st).1 = Except.ok res
        ∧ res.length = k)
      ∧ (processRows rows tpls outs (controlWriteAt k .paused) gen st).2.procStatus.status
          = .paused
      ∧ (processRows rows tpls outs (controlWriteAt k .paused) gen st).2.procStatus.processedRows
          = k
      ∧ (processRows rows tpls outs (controlWriteAt k .paused) gen st).2.messages.getLast?
          = some ⟨.info, "Processing paused by user."⟩)
    ∧ ((∃ res, (processRows rows tpls outs (controlWriteAt k .idle) gen st).1 = Except.ok res
        ∧ res.length = k)
      ∧ (processRows rows tpls outs (controlWriteAt k .idle) gen st).2.procStatus.status = .idle
      ∧ (processRows rows tpls outs (controlWriteAt k .idle) gen st).2.procStatus.processedRows
          = k
      ∧ (processRows rows tpls outs (controlWriteAt k .idle) gen st).2.messages.getLast?
          = some ⟨.info, "Processing stopped by user or due to an error."⟩) :=
  ⟨processRows_control_interrupt rows tpls outs gen st k .paused
      "Processing paused by user." hk hclean (Or.inl ⟨rfl, rfl⟩),
   processRows_control_interrupt rows tpls outs gen st k .idle
      "Processing stopped by user or due to an error." hk hclean
      (Or.inr ⟨Or.inl rfl, rfl⟩)⟩

/-- Witness for C1: a concrete 3-row run paused at the boundary before
row 1 returns one completed row with status `paused`. -/
theorem processRows_pause_stop_row_boundary_witness :
    (∃ res, (processRows [[("a", "1")], [("a", "2")], [("a", "3")]] ["q"] ["out"]
        (controlWriteAt 1 .paused) (fun _ _ => .ok "text")
        ⟨⟨.idle, 0, 0, 3, none⟩, []⟩).1 = Except.ok res ∧ res.length = 1)
      ∧ (processRows [[("a", "1")], [("a", "2")], [("a", "3")]] ["q"] ["out"]
          (controlWriteAt 1 .paused) (fun _ _ => .ok "text")
          ⟨⟨.idle, 0, 0, 3, none⟩, []⟩).2.procStatus.status = .paused
      ∧ (processRows [[("a", "1")], [("a", "2")], [("a", "3")]] ["q"] ["out"]
          (controlWriteAt 1 .paused) (fun _ _ => .ok "text")
          ⟨⟨.idle, 0, 0, 3, none⟩, []⟩).2.procStatus.processedRows = 1
      ∧ (processRows [[("a", "1")], [("a", "2")], [("a", "3")]] ["q"] ["out"]
          (controlWriteAt 1 .paused) (fun _ _ => .ok "text")
          ⟨⟨.idle, 0, 0, 3, none⟩, []⟩).2.messages.getLast?
        = some ⟨.info, "Processing paused by user."⟩ :=
  (processRows_pause_stop_row_boundary [[("a", "1")], [("a", "2")], [("a", "3")]]
    ["q"] ["out"] (fun _ _ => .ok "text") ⟨⟨.idle, 0, 0, 3, none⟩, []⟩ 1
    (by decide) (fun r i _ => rfl)).1

/-- C2: when every generation outcome is non-interrupting (successes,
no-response/timeouts, other per-cell API errors), the engine finishes
the whole run: it returns one enriched row per input row, Run State
ends at `completed` with `processedRows = totalRows = rows.length` and
progress 100, every output cell holds the response text or the
`NO_RESPONSE`/`API_ERROR` sentinel of its own outcome (failure is
isolated to that cell), and all non-output fields are untouched. -/
theorem processRows_per_cell_isolation
    (rows : List Row) (tpls outs : List String) (gen : Nat → Nat → GenOutcome) (st : Storage)
    (hlen : tpls.length = outs.length)
    (hnodup : outs.Nodup)
    (hclean : ∀ r i, interrupting (gen r i) = false) :
    ∃ res, (processRows rows tpls outs noControl gen st).1 = Except.ok res
      ∧ res.length = rows.length
      ∧ (processRows rows tpls outs noControl gen st).2.procStatus.status = .completed
      ∧ (processRows rows tpls outs noControl gen st).2.procStatus.processedRows = rows.length
      ∧ (processRows rows tpls outs noControl gen st).2.procStatus.totalRows = rows.length
      ∧ (processRows rows tpls outs noControl gen st).2.procStatus.progress = 100
      ∧ (∀ r, r < rows.length → ∀ i, i < tpls.length →
          List.lookup (outs.getD i "") (res.getD r []) = some (cellValue (gen r i)))
      ∧ (∀ r, r < rows.length → ∀ f, ¬ f ∈ outs →
          List.lookup f (res.getD r []) = List.lookup f (rows.getD r [])) := by
  have hmap : (tpls.zip outs).map Prod.snd = outs :=
    List.map_snd_zip tpls outs (by omega)
  obtain ⟨ec1, nc1, st1, hloop, hs1, hp1⟩ :=
    processRowsGo_clean_prefix st.procStatus (tpls.zip outs) noControl gen
      rows.length rows [] 0 [] 0 0
      (setStatus st { st.procStatus with
        status := .processing
        processedRows := 0
        totalRows := rows.length })
      (fun j _ _ => rfl)
      (fun r i _ _ => hclean r i)
      (by simp [setStatus])
      (by simp [setStatus])
  simp only [Nat.zero_add, List.nil_append, List.append_nil] at hloop hp1
  have hbase : processRowsGo st.procStatus (tpls.zip outs) noControl gen rows.length []
      rows.length (enrichRows (tpls.zip outs) gen rows 0) ec1 nc1 st1
      = .finished (enrichRows (tpls.zip outs) gen rows 0)
          (setStatus (addMsg st1 ⟨.success, completionMessage rows.length ec1 nc1⟩)
            { st.procStatus with
              status := .completed
              progress := 100
              processedRows := rows.length
              totalRows := rows.length }) := rfl
  refine ⟨enrichRows (tpls.zip outs) gen rows 0, ?_, enrichRows_length _ _ _ _, ?_, ?_, ?_, ?_,
    ?_, ?_⟩
  · simp only [processRows, hloop, hbase]
  · simp only [processRows, hloop, hbase]
    simp [setStatus, addMsg]
  · simp only [processRows, hloop, hbase]
    simp [setStatus, addMsg]
  · simp only [processRows, hloop, hbase]
    simp [setStatus, addMsg]
  · simp only [processRows, hloop, hbase]
    simp [setStatus, addMsg]
  · intro r hr i hi
    rw [enrichRows_getD _ _ rows 0 r hr]
    have hj : i < (tpls.zip outs).length := by
      rw [List.length_zip]
      omega
    have := enrichCells_lookup_out (gen r) (tpls.zip outs) 0 (rows.getD r []) i hj
      (by rw [hmap]; exact hnodup)
    rw [hmap] at this
    simpa using this
  · intro r hr f hf
    rw [enrichRows_getD _ _ rows 0 r hr]
    simp only [Nat.zero_add]
    exact enrichCells_lookup_notin (gen r) (tpls.zip outs) 0 _ f (by rw [hmap]; exact hf)

/-- Witness for C2: three rows where the middle row's call always
times out; the run completes with 3 rows, the middle output cell is
`NO_RESPONSE`, and the neighbours hold real text. -/
theorem processRows_per_cell_isolation_witness :
    (processRows [[("a", "1")], [("a", "2")], [("a", "3")]] ["q"] ["out"] noControl
        (fun r _ => if r = 1 then .err "Request timeout reached" else .ok "text")
        ⟨⟨.idle, 0, 0, 3, none⟩, []⟩).2.procStatus.status = .completed
      ∧ (processRows [[("a", "1")], [("a", "2")], [("a", "3")]] ["q"] ["out"] noControl
          (fun r _ => if r = 1 then .err "Request timeout reached" else .ok "text")
          ⟨⟨.idle, 0, 0, 3, none⟩, []⟩).2.procStatus.processedRows = 3
      ∧ ∃ res, (processRows [[("a", "1")], [("a", "2")], [("a", "3")]] ["q"] ["out"] noControl
          (fun r _ => if r = 1 then .err "Request timeout reached" else .ok "text")
          ⟨⟨.idle, 0, 0, 3, none⟩, []⟩).1 = Except.ok res
        ∧ res.length = 3
        ∧ List.lookup "out" (res.getD 0 []) = some "text"
        ∧ List.lookup "out" (res.getD 1 []) = some "NO_RESPONSE"
        ∧ List.lookup "out" (res.getD 2 []) = some "text" := by
  obtain ⟨res, h1, h2, h3, h4, h5, h6, h7, h8⟩ :=
    processRows_per_cell_isolation [[("a", "1")], [("a", "2")], [("a", "3")]] ["q"] ["out"]
      (fun r _ => if r = 1 then .err "Request timeout reached" else .ok "text")
      ⟨⟨.idle, 0, 0, 3, none⟩, []⟩ (by decide) (by decide)
      (fun r i => by
        by_cases h : r = 1 <;> simp [h] <;> decide)
  refine ⟨h3, h4, res, h1, h2, ?_, ?_, ?_⟩
  · have := h7 0 (by decide) 0 (by decide)
    simpa using this
  · have := h7 1 (by decide) 0 (by decide)
    simpa using this
  · have := h7 2 (by decide) 0 (by decide)
    simpa using this

/-- C3: when the generation call for row `r0`, template `i0` fails
with an auth error (message containing `401 Unauthorized` or
`Invalid API key`), after a clean run up to that cell the engine
raises to its caller, and the Run State returned with the raise is
already `error` with `processedRows = r0`, the number of rows
completed strictly before the failing cell. -/
theorem processRows_fatal_auth
    (rows : List Row) (tpls outs : List String) (gen : Nat → Nat → GenOutcome) (st : Storage)
    (r0 i0 : Nat) (hr0 : r0 < rows.length) (hi0 : i0 < (tpls.zip outs).length)
    (hrows : ∀ r i, r < r0 → interrupting (gen r i) = false)
    (hcells : ∀ i, i < i0 → interrupting (gen r0 i) = false)
    (hfatal : fatalOutcome (gen r0 i0) = true) :
    (processRows rows tpls outs noControl gen st).1
        = Except.error
            "API request failed with status 401 Unauthorized. \x7b\"error\": \"Invalid API key\"\x7d"
      ∧ (processRows rows tpls outs noControl gen st).2.procStatus.status = .error
      ∧ (processRows rows tpls outs noControl gen st).2.procStatus.processedRows = r0 := by
  obtain ⟨l1, l2, rfl, hl1⟩ : ∃ l1 l2, rows = l1 ++ l2 ∧ l1.length = r0 :=
    ⟨rows.take r0, rows.drop r0, (List.take_append_drop r0 rows).symm, by
      simp [List.length_take]
      omega⟩
  match l2, hr0 with
  | [], hr0 => simp [hl1] at hr0
  | row :: rest, hr0 =>
    obtain ⟨c1, c2, hcfg, hc1⟩ : ∃ c1 c2, tpls.zip outs = c1 ++ c2 ∧ c1.length = i0 :=
      ⟨(tpls.zip outs).take i0, (tpls.zip outs).drop i0,
        (List.take_append_drop i0 (tpls.zip outs)).symm, by
          rw [List.length_take]
          exact Nat.min_eq_left (Nat.le_of_lt hi0)⟩
    match c2, hcfg, hi0 with
    | [], hcfg, hi0 => rw [hcfg] at hi0; simp [hc1] at hi0
    | (tpl0, out0) :: crest, hcfg, hi0 =>
      cases hg : gen r0 i0 with
      | ok text => rw [hg] at hfatal; simp [fatalOutcome] at hfatal
      | err m =>
        have hf : (jsIncludes ("LLM error: " ++ m) "401 Unauthorized"
            || jsIncludes ("LLM error: " ++ m) "Invalid API key") = true := by
          rw [hg] at hfatal
          simpa [fatalOutcome] using hfatal
        obtain ⟨ec1, nc1, st1, hloop, hs1, hp1⟩ :=
          processRowsGo_clean_prefix st.procStatus (tpls.zip outs) noControl gen
            (l1 ++ row :: rest).length l1 (row :: rest) 0 [] 0 0
            (setStatus st { st.procStatus with
              status := .processing
              processedRows := 0
              totalRows := (l1 ++ row :: rest).length })
            (fun j _ _ => rfl)
            (fun r i _ hr => hrows r i (by omega))
            (by simp [setStatus])
            (by simp [setStatus])
        simp only [Nat.zero_add, List.nil_append] at hloop hp1
        obtain ⟨ec2, nc2, st2, hcell1, hps2⟩ :=
          processCells_append st.procStatus row (gen l1.length) l1.length
            (l1 ++ row :: rest).length c1 ((tpl0, out0) :: crest) 0 row ec1 nc1 st1
            (fun j hj => by
              rw [hl1, Nat.zero_add]
              exact hcells j (by omega))
        have hg' : gen l1.length (0 + c1.length) = .err m := by
          rw [hl1, hc1]
          simpa using hg
        have hnp : (st1.procStatus.status = PStatus.paused) = False := by simp [hs1]
        have hni : (st1.procStatus.status = PStatus.idle
            ∨ st1.procStatus.status = PStatus.error) = False := by simp [hs1]
        have hrowstep : ∃ st3, processRowsGo st.procStatus (tpls.zip outs) noControl gen
            (l1 ++ row :: rest).length (row :: rest) l1.length
            (enrichRows (tpls.zip outs) gen l1 0) ec1 nc1 st1
            = LoopOut.raised
                "API request failed with status 401 Unauthorized. \x7b\"error\": \"Invalid API key\"\x7d"
                l1.length st3 := by
          simp only [processRowsGo]
          rw [show applyEnv noControl l1.length st1 = st1 from rfl]
          simp only [hnp, hni, if_false]
          rw [hcfg, hcell1]
          simp only [processCells, query, hg', hf, if_true]
          exact ⟨_, rfl⟩
        obtain ⟨st3, hrowstep⟩ := hrowstep
        simp only [processRows, hloop, hrowstep]
        refine ⟨?_, ?_, ?_⟩ <;> simp [setStatus, addMsg, hl1]

/-- Witness for C3: row 1's call reports a 401; the run raises with
status `error` and `processedRows = 1`. -/
theorem processRows_fatal_auth_witness :
    (processRows [[("a", "1")], [("a", "2")], [("a", "3")]] ["q"] ["out"] noControl
        (fun r _ => if r = 1 then .err "API request failed with status 401 Unauthorized. "
          else .ok "text")
        ⟨⟨.idle, 0, 0, 3, none⟩, []⟩).1
      = Except.error
          "API request failed with status 401 Unauthorized. \x7b\"error\": \"Invalid API key\"\x7d"
      ∧ (processRows [[("a", "1")], [("a", "2")], [("a", "3")]] ["q"] ["out"] noControl
          (fun r _ => if r = 1 then .err "API request failed with status 401 Unauthorized. "
            else .ok "text")
          ⟨⟨.idle, 0, 0, 3, none⟩, []⟩).2.procStatus.status = .error
      ∧ (processRows [[("a", "1")], [("a", "2")], [("a", "3")]] ["q"] ["out"] noControl
          (fun r _ => if r = 1 then .err "API request failed with status 401 Unauthorized. "
            else .ok "text")
          ⟨⟨.idle, 0, 0, 3, none⟩, []⟩).2.procStatus.processedRows = 1 :=
  processRows_fatal_auth [[("a", "1")], [("a", "2")], [("a", "3")]] ["q"] ["out"]
    (fun r _ => if r = 1 then .err "API request failed with status 401 Unauthorized. "
      else .ok "text")
    ⟨⟨.idle, 0, 0, 3, none⟩, []⟩ 1 0 (by decide) (by decide)
    (fun r i hr => by
      have h : ¬ r = 1 := by omega
      simp [h, interrupting, fatalOutcome, rateOutcome])
    (fun i hi => absurd hi (by omega))
    (by decide)

/-- C4 (amended): when the generation call for row `r0`, template `i0`
fails with a rate-limit error (and is not classified fatal first),
after a clean run up to that cell the engine updates Run State to
status `paused` with the current `processedRows = r0` and
`totalRows = rows.length`, writes no new error detail (the error field
keeps whatever the engine's initial status snapshot held — it is empty
only if it was already empty), and returns the accumulated enriched
rows normally instead of raising. -/
theorem processRows_rate_limit
    (rows : List Row) (tpls outs : List String) (gen : Nat → Nat → GenOutcome) (st : Storage)
    (r0 i0 : Nat) (hr0 : r0 < rows.length) (hi0 : i0 < (tpls.zip outs).length)
    (hrows : ∀ r i, r < r0 → interrupting (gen r i) = false)
    (hcells : ∀ i, i < i0 → interrupting (gen r0 i) = false)
    (hnofatal : fatalOutcome (gen r0 i0) = false)
    (hrate : rateOutcome (gen r0 i0) = true) :
    (∃ res, (processRows rows tpls outs noControl gen st).1 = Except.ok res
        ∧ res.length = r0)
      ∧ (processRows rows tpls outs noControl gen st).2.procStatus.status = .paused
      ∧ (processRows rows tpls outs noControl gen st).2.procStatus.processedRows = r0
      ∧ (processRows rows tpls outs noControl gen st).2.procStatus.totalRows = rows.length
      ∧ (processRows rows tpls outs noControl gen st).2.procStatus.error
          = st.procStatus.error := by
  obtain ⟨l1, l2, rfl, hl1⟩ : ∃ l1 l2, rows = l1 ++ l2 ∧ l1.length = r0 :=
    ⟨rows.take r0, rows.drop r0, (List.take_append_drop r0 rows).symm, by
      simp [List.length_take]
      omega⟩
  match l2, hr0 with
  | [], hr0 => simp [hl1] at hr0
  | row :: rest, hr0 =>
    obtain ⟨c1, c2, hcfg, hc1⟩ : ∃ c1 c2, tpls.zip outs = c1 ++ c2 ∧ c1.length = i0 :=
      ⟨(tpls.zip outs).take i0, (tpls.zip outs).drop i0,
        (List.take_append_drop i0 (tpls.zip outs)).symm, by
          rw [List.length_take]
          exact Nat.min_eq_left (Nat.le_of_lt hi0)⟩
    match c2, hcfg, hi0 with
    | [], hcfg, hi0 => rw [hcfg] at hi0; simp [hc1] at hi0
    | (tpl0, out0) :: crest, hcfg, hi0 =>
      cases hg : gen r0 i0 with
      | ok text => rw [hg] at hrate; simp [rateOutcome] at hrate
      | err m =>
        have hf : (jsIncludes ("LLM error: " ++ m) "401 Unauthorized"
            || jsIncludes ("LLM error: " ++ m) "Invalid API key") = false := by
          rw [hg] at hnofatal
          simpa [fatalOutcome] using hnofatal
        have hr : jsIncludes ("LLM error: " ++ m) "API rate limit" = true := by
          rw [hg] at hrate
          simpa [rateOutcome] using hrate
        obtain ⟨ec1, nc1, st1, hloop, hs1, hp1⟩ :=
          processRowsGo_clean_prefix st.procStatus (tpls.zip outs) noControl gen
            (l1 ++ row :: rest).length l1 (row :: rest) 0 [] 0 0
            (setStatus st { st.procStatus with
              status := .processing
              processedRows := 0
              totalRows := (l1 ++ row :: rest).length })
            (fun j _ _ => rfl)
            (fun r i _ hr => hrows r i (by omega))
            (by simp [setStatus])
            (by simp [setStatus])
        simp only [Nat.zero_add, List.nil_append] at hloop hp1
        obtain ⟨ec2, nc2, st2, hcell1, hps2⟩ :=
          processCells_append st.procStatus row (gen l1.length) l1.length
            (l1 ++ row :: rest).length c1 ((tpl0, out0) :: crest) 0 row ec1 nc1 st1
            (fun j hj => by
              rw [hl1, Nat.zero_add]
              exact hcells j (by omega))
        have hg' : gen l1.length (0 + c1.length) = .err m := by
          rw [hl1, hc1]
          simpa using hg
        have hnp : (st1.procStatus.status = PStatus.paused) = False := by simp [hs1]
        have hni : (st1.procStatus.status = PStatus.idle
            ∨ st1.procStatus.status = PStatus.error) = False := by simp [hs1]
        have hrowstep : ∃ st3, processRowsGo st.procStatus (tpls.zip outs) noControl gen
            (l1 ++ row :: rest).length (row :: rest) l1.length
            (enrichRows (tpls.zip outs) gen l1 0) ec1 nc1 st1
            = LoopOut.finished (enrichRows (tpls.zip outs) gen l1 0) st3
            ∧ st3.procStatus = { st.procStatus with
                status := .paused
                progress := jsRound100 l1.length (l1 ++ row :: rest).length
                processedRows := l1.length
                totalRows := (l1 ++ row :: rest).length } := by
          simp only [processRowsGo]
          rw [show applyEnv noControl l1.length st1 = st1 from rfl]
          simp only [hnp, hni, if_false]
          rw [hcfg, hcell1]
          simp only [processCells, query, hg', hf, hr, Bool.false_eq_true, if_false, if_true]
          exact ⟨_, rfl, rfl⟩
        obtain ⟨st3, hrowstep, hst3⟩ := hrowstep
        simp only [processRows, hloop, hrowstep]
        refine ⟨⟨enrichRows (tpls.zip outs) gen l1 0, rfl, by
          rw [enrichRows_length]
          exact hl1⟩, ?_, ?_, ?_, ?_⟩ <;> simp [hst3, hl1]

/-- Witness for C4: row 1's call reports a rate limit on a run whose
status snapshot has no error detail; the run returns one accumulated
row, pauses with `processedRows = 1`, and the error field stays empty. -/
theorem processRows_rate_limit_witness :
    (∃ res, (processRows [[("a", "1")], [("a", "2")], [("a", "3")]] ["q"] ["out"] noControl
        (fun r _ => if r = 1 then .err "API rate limit exceeded" else .ok "text")
        ⟨⟨.idle, 0, 0, 3, none⟩, []⟩).1 = Except.ok res ∧ res.length = 1)
      ∧ (processRows [[("a", "1")], [("a", "2")], [("a", "3")]] ["q"] ["out"] noControl
          (fun r _ => if r = 1 then .err "API rate limit exceeded" else .ok "text")
          ⟨⟨.idle, 0, 0, 3, none⟩, []⟩).2.procStatus.status = .paused
      ∧ (processRows [[("a", "1")], [("a", "2")], [("a", "3")]] ["q"] ["out"] noControl
          (fun r _ => if r = 1 then .err "API rate limit exceeded" else .ok "text")
          ⟨⟨.idle, 0, 0, 3, none⟩, []⟩).2.procStatus.processedRows = 1
      ∧ (processRows [[("a", "1")], [("a", "2")], [("a", "3")]] ["q"] ["out"] noControl
          (fun r _ => if r = 1 then .err "API rate limit exceeded" else .ok "text")
          ⟨⟨.idle, 0, 0, 3, none⟩, []⟩).2.procStatus.totalRows = 3
      ∧ (processRows [[("a", "1")], [("a", "2")], [("a", "3")]] ["q"] ["out"] noControl
          (fun r _ => if r = 1 then .err "API rate limit exceeded" else .ok "text")
          ⟨⟨.idle, 0, 0, 3, none⟩, []⟩).2.procStatus.error
        = (⟨⟨.idle, 0, 0, 3, none⟩, []⟩ : Storage).procStatus.error :=
  processRows_rate_limit [[("a", "1")], [("a", "2")], [("a", "3")]] ["q"] ["out"]
    (fun r _ => if r = 1 then .err "API rate limit exceeded" else .ok "text")
    ⟨⟨.idle, 0, 0, 3, none⟩, []⟩ 1 0 (by decide) (by decide)
    (fun r i hr => by
      have h : ¬ r = 1 := by omega
      simp [h, interrupting, fatalOutcome, rateOutcome])
    (fun i hi => absurd hi (by omega))
    (by decide) (by decide)

/-- A dollar-free replacement string is substituted verbatim. -/
theorem jsReplSubst_no_dollar (matched before after : List Char) :
    ∀ rep : List Char, ¬ '$' ∈ rep → jsReplSubst rep matched before after = rep := by
  intro rep
  induction rep with
  | nil => intro _; rfl
  | cons c rest ih =>
    intro h
    simp only [List.mem_cons] at h
    push_neg at h
    have hc : ¬ c = '$' := fun he => h.1 he.symm
    rw [jsReplSubst.eq_def]
    dsimp only
    rw [if_neg hc, ih h.2]

/-- Scanning past an accumulator only prepends its reverse. -/
theorem replaceFirstGo_accum (pat rep : List Char) (hrep : ¬ '$' ∈ rep) :
    ∀ (s pre : List Char),
      replaceFirstGo pat rep pre s = pre.reverse ++ replaceFirstGo pat rep [] s := by
  intro s
  induction s with
  | nil =>
    intro pre
    simp only [replaceFirstGo]
    cases hp : lHasPre pat [] <;>
      simp [jsReplSubst_no_dollar _ _ _ _ hrep]
  | cons c cs ih =>
    intro pre
    simp only [replaceFirstGo]
    cases hp : lHasPre pat (c :: cs) with
    | true =>
      simp [jsReplSubst_no_dollar _ _ _ _ hrep]
    | false =>
      simp only [Bool.false_eq_true, if_false]
      rw [ih (c :: pre), ih [c]]
      simp

/-- Every list is a prefix of itself followed by anything. -/
theorem lHasPre_append_self : ∀ p t : List Char, lHasPre p (p ++ t) = true := by
  intro p
  induction p with
  | nil => intro t; rfl
  | cons c cs ih => intro t; simp [lHasPre, ih]

/-- `lHasPre` is exactly prefix decomposability. -/
theorem lHasPre_iff_exists (p : List Char) :
    ∀ s : List Char, lHasPre p s = true ↔ ∃ t, s = p ++ t := by
  induction p with
  | nil => intro s; simp [lHasPre]
  | cons c cs ih =>
    intro s
    match s with
    | [] => simp [lHasPre]
    | x :: xs =>
      simp only [lHasPre, Bool.and_eq_true, decide_eq_true_eq, ih xs]
      constructor
      · rintro ⟨rfl, t, rfl⟩
        exact ⟨t, rfl⟩
      · rintro ⟨t, ht⟩
        rw [List.cons_append] at ht
        obtain ⟨h1, h2⟩ := List.cons_eq_cons.mp ht
        exact ⟨h1.symm, t, h2⟩

/-- Stepping `replaceFirst` over a non-matching head character. -/
theorem replaceFirst_cons_of_not_pre (c : Char) (cs pat rep : List Char)
    (hp : lHasPre pat (c :: cs) = false) (hrep : ¬ '$' ∈ rep) :
    replaceFirst (c :: cs) pat rep = c :: replaceFirst cs pat rep := by
  unfold replaceFirst
  rw [show replaceFirstGo pat rep [] (c :: cs)
      = replaceFirstGo pat rep [c] cs from by simp [replaceFirstGo, hp]]
  rw [replaceFirstGo_accum pat rep hrep cs [c]]
  rfl

/-- `replaceFirst` skips a leading segment that cannot start a match:
the pattern begins with a brace and the segment contains none. -/
theorem replaceFirst_append_left (pat rep : List Char) (p' : List Char)
    (hpat : pat = '{' :: p') (hrep : ¬ '$' ∈ rep) :
    ∀ (P S : List Char), ¬ '{' ∈ P →
      replaceFirst (P ++ S) pat rep = P ++ replaceFirst S pat rep := by
  intro P
  induction P with
  | nil => intro S _; rfl
  | cons c P' ih =>
    intro S hP
    simp only [List.mem_cons] at hP
    push_neg at hP
    have hcc : ('{' = c) = False := eq_false hP.1
    have hpre : lHasPre pat (c :: (P' ++ S)) = false := by
      rw [hpat]
      simp [lHasPre, hcc]
    rw [List.cons_append, replaceFirst_cons_of_not_pre c (P' ++ S) pat rep hpre hrep,
      ih S hP.2]
    simp

/-- `replaceFirst` at an immediate match substitutes in place. -/
theorem replaceFirst_head (pat rep : List Char) (c0 : Char) (p' : List Char)
    (hpat : pat = c0 :: p') (hrep : ¬ '$' ∈ rep) (S : List Char) :
    replaceFirst (pat ++ S) pat rep = rep ++ S := by
  unfold replaceFirst
  rw [hpat]
  rw [show (c0 :: p') ++ S = c0 :: (p' ++ S) from rfl]
  have hpre : lHasPre (c0 :: p') (c0 :: (p' ++ S)) = true := lHasPre_append_self _ _
  simp only [replaceFirstGo, hpre, if_true]
  rw [jsReplSubst_no_dollar _ _ _ _ hrep]
  have hdrop : (c0 :: (p' ++ S)).drop (c0 :: p').length = S := by
    rw [show c0 :: (p' ++ S) = (c0 :: p') ++ S from rfl]
    exact List.drop_left _ _
  rw [hdrop]
  rfl

/-- `takeWhile`/`dropWhile` across a satisfying segment followed by a
failing element. -/
theorem takeWhile_dropWhile_append (p : Char → Bool) :
    ∀ (l1 : List Char) (x : Char) (l2 : List Char),
      (∀ a ∈ l1, p a = true) → p x = false →
      (l1 ++ x :: l2).takeWhile p = l1 ∧ (l1 ++ x :: l2).dropWhile p = x :: l2 := by
  intro l1
  induction l1 with
  | nil =>
    intro x l2 _ hx
    constructor
    · simp [List.takeWhile_cons, hx]
    · simp [List.dropWhile_cons, hx]
  | cons a l1' ih =>
    intro x l2 h hx
    have ha : p a = true := h a (by simp)
    obtain ⟨h1, h2⟩ := ih x l2 (fun b hb => h b (by simp [hb])) hx
    constructor
    · simp [List.takeWhile_cons, ha, h1]
    · simp [List.dropWhile_cons, ha, h2]

/-- Scanner step equation: a successful match at the head. -/
theorem scanPHGo_match_eq (fuel : Nat) (rest : List Char)
    (hok : rest.takeWhile (fun c => c ≠ '}') ≠ []
      ∧ (rest.dropWhile (fun c => c ≠ '}')).take 2 = ['}', '}']) :
    scanPHGo (fuel + 1) ('{' :: '{' :: rest)
      = rest.takeWhile (fun c => c ≠ '}')
        :: scanPHGo fuel ((rest.dropWhile (fun c => c ≠ '}')).drop 2) := by
  rw [scanPHGo.eq_def]
  dsimp only
  rw [if_pos ⟨rfl, rfl⟩, if_pos hok]

/-- Scanner step equation: braces at the head but no completed match. -/
theorem scanPHGo_badmatch_eq (fuel : Nat) (rest : List Char)
    (hbad : ¬ (rest.takeWhile (fun c => c ≠ '}') ≠ []
      ∧ (rest.dropWhile (fun c => c ≠ '}')).take 2 = ['}', '}'])) :
    scanPHGo (fuel + 1) ('{' :: '{' :: rest) = scanPHGo fuel ('{' :: rest) := by
  rw [scanPHGo.eq_def]
  dsimp only
  rw [if_pos ⟨rfl, rfl⟩, if_neg hbad]

/-- Scanner step equation: no double brace at the head. -/
theorem scanPHGo_nomatch_eq (fuel : Nat) (c1 c2 : Char) (rest : List Char)
    (h : ¬ (c1 = '{' ∧ c2 = '{')) :
    scanPHGo (fuel + 1) (c1 :: c2 :: rest) = scanPHGo fuel (c2 :: rest) := by
  rw [scanPHGo.eq_def]
  dsimp only
  rw [if_neg h]

/-- Spec-filler step equation: a successful match at the head. -/
theorem fillSpecGo_match_eq (row : Row) (fuel : Nat) (rest : List Char)
    (hok : rest.takeWhile (fun c => c ≠ '}') ≠ []
      ∧ (rest.dropWhile (fun c => c ≠ '}')).take 2 = ['}', '}']) :
    fillSpecGo row (fuel + 1) ('{' :: '{' :: rest)
      = substValue row (rest.takeWhile (fun c => c ≠ '}'))
        ++ fillSpecGo row fuel ((rest.dropWhile (fun c => c ≠ '}')).drop 2) := by
  rw [fillSpecGo.eq_def]
  dsimp only
  rw [if_pos ⟨rfl, rfl⟩, if_pos hok]

/-- Spec-filler step equation: braces at the head but no completed
match. -/
theorem fillSpecGo_badmatch_eq (row : Row) (fuel : Nat) (rest : List Char)
    (hbad : ¬ (rest.takeWhile (fun c => c ≠ '}') ≠ []
      ∧ (rest.dropWhile (fun c => c ≠ '}')).take 2 = ['}', '}'])) :
    fillSpecGo row (fuel + 1) ('{' :: '{' :: rest)
      = '{' :: fillSpecGo row fuel ('{' :: rest) := by
  rw [fillSpecGo.eq_def]
  dsimp only
  rw [if_pos ⟨rfl, rfl⟩, if_neg hbad]

/-- Spec-filler step equation: no double brace at the head. -/
theorem fillSpecGo_nomatch_eq (row : Row) (fuel : Nat) (c1 c2 : Char) (rest : List Char)
    (h : ¬ (c1 = '{' ∧ c2 = '{')) :
    fillSpecGo row (fuel + 1) (c1 :: c2 :: rest)
      = c1 :: fillSpecGo row fuel (c2 :: rest) := by
  rw [fillSpecGo.eq_def]
  dsimp only
  rw [if_neg h]

/-- Clean-template elimination at a double brace: the match must
complete and the remainder must be clean. -/
theorem cleanGo_match_elim (fuel : Nat) (rest : List Char)
    (h : cleanGo (fuel + 1) ('{' :: '{' :: rest) = true) :
    (rest.takeWhile (fun c => c ≠ '}') ≠ []
      ∧ (rest.dropWhile (fun c => c ≠ '}')).take 2 = ['}', '}'])
    ∧ cleanGo fuel ((rest.dropWhile (fun c => c ≠ '}')).drop 2) = true := by
  rw [cleanGo.eq_def] at h
  dsimp only at h
  rw [if_pos ⟨rfl, rfl⟩] at h
  by_cases hok : rest.takeWhile (fun c => c ≠ '}') ≠ []
      ∧ (rest.dropWhile (fun c => c ≠ '}')).take 2 = ['}', '}']
  · rw [if_pos hok] at h
    exact ⟨hok, h⟩
  · rw [if_neg hok] at h
    exact absurd h (by simp)

/-- Clean-template elimination at an ordinary character. -/
theorem cleanGo_nomatch_elim (fuel : Nat) (c1 c2 : Char) (rest : List Char)
    (hne : ¬ (c1 = '{' ∧ c2 = '{'))
    (h : cleanGo (fuel + 1) (c1 :: c2 :: rest) = true) :
    (c1 ≠ '{' ∧ c1 ≠ '}') ∧ cleanGo fuel (c2 :: rest) = true := by
  rw [cleanGo.eq_def] at h
  dsimp only at h
  rw [if_neg hne] at h
  simpa using h

/-- Every name captured by the scanner is nonempty and free of closing
braces. -/
theorem scanPHGo_names_wf :
    ∀ (fuel : Nat) (cs nm : List Char), nm ∈ scanPHGo fuel cs →
      nm ≠ [] ∧ ∀ c ∈ nm, c ≠ '}' := by
  intro fuel
  induction fuel with
  | zero => intro cs nm h; simp [scanPHGo] at h
  | succ fuel ih =>
    intro cs nm h
    match cs with
    | [] => simp [scanPHGo] at h
    | [c] => simp [scanPHGo] at h
    | c1 :: c2 :: rest =>
      by_cases hbb : c1 = '{' ∧ c2 = '{'
      · obtain ⟨rfl, rfl⟩ := hbb
        by_cases hok : rest.takeWhile (fun c => c ≠ '}') ≠ []
            ∧ (rest.dropWhile (fun c => c ≠ '}')).take 2 = ['}', '}']
        · rw [scanPHGo_match_eq fuel rest hok] at h
          rcases List.mem_cons.mp h with hhd | htl
          · subst hhd
            refine ⟨hok.1, ?_⟩
            intro c hc
            simpa using List.mem_takeWhile_imp hc
          · exact ih _ _ htl
        · rw [scanPHGo_badmatch_eq fuel rest hok] at h
          exact ih _ _ h
      · rw [scanPHGo_nomatch_eq fuel c1 c2 rest hbb] at h
        exact ih _ _ h

/-- A character absent from every row value is absent from every
substituted value. -/
theorem substValue_not_mem (row : Row) (nm : List Char) (ch : Char)
    (h : ∀ kv ∈ row, ¬ ch ∈ (kv.2 : String).toList) :
    ¬ ch ∈ substValue row nm := by
  unfold substValue
  cases hl : List.lookup (String.mk (trimL nm)) row with
  | none => simp
  | some v =>
    obtain ⟨l1, l2, heq, _⟩ := List.lookup_eq_some_iff.mp hl
    have hv : (String.mk (trimL nm), v) ∈ row := by
      rw [heq]
      simp
    exact h _ hv

/-- The substitution fold agrees with per-occurrence substitution on a
clean template when no row value contains a brace or a dollar, no
matter what brace-free prefix has already been emitted. -/
theorem fill_go_spec (row : Row)
    (hrow : ∀ kv ∈ row, ¬ '{' ∈ (kv.2 : String).toList ∧ ¬ '$' ∈ (kv.2 : String).toList) :
    ∀ (fuel : Nat) (cs P : List Char), cs.length ≤ fuel → ¬ '{' ∈ P →
      cleanGo fuel cs = true →
      List.foldl (fun acc name => replaceFirst acc (phLit name) (substValue row name))
        (P ++ cs) (scanPHGo fuel cs)
      = P ++ fillSpecGo row fuel cs := by
  have hrow1 : ∀ kv ∈ row, ¬ '{' ∈ (kv.2 : String).toList := fun kv h => (hrow kv h).1
  have hrow2 : ∀ kv ∈ row, ¬ '$' ∈ (kv.2 : String).toList := fun kv h => (hrow kv h).2
  intro fuel
  induction fuel with
  | zero =>
    intro cs P hlen hP hclean
    have hnil : cs = [] := List.eq_nil_of_length_eq_zero (Nat.le_zero.mp hlen)
    subst hnil
    simp [scanPHGo, fillSpecGo]
  | succ fuel ih =>
    intro cs P hlen hP hclean
    match cs, hlen, hclean with
    | [], hlen, hclean => simp [scanPHGo, fillSpecGo]
    | [c], hlen, hclean =>
      rw [show scanPHGo (fuel + 1) [c] = [] from rfl]
      rw [show fillSpecGo row (fuel + 1) [c] = [c] from rfl]
      simp
    | c1 :: c2 :: rest, hlen, hclean =>
      by_cases hbb : c1 = '{' ∧ c2 = '{'
      · obtain ⟨rfl, rfl⟩ := hbb
        obtain ⟨hok, hcl2⟩ := cleanGo_match_elim fuel rest hclean
        have hsub1 : ¬ '{' ∈ substValue row (rest.takeWhile (fun c => c ≠ '}')) :=
          substValue_not_mem row _ '{' hrow1
        have hsub2 : ¬ '$' ∈ substValue row (rest.takeWhile (fun c => c ≠ '}')) :=
          substValue_not_mem row _ '$' hrow2
        have hlen_decomp : (rest.takeWhile (fun c => c ≠ '}')).length
            + (rest.dropWhile (fun c => c ≠ '}')).length = rest.length := by
          rw [← List.length_append, List.takeWhile_append_dropWhile]
        have hafter : rest.dropWhile (fun c => c ≠ '}')
            = ['}', '}'] ++ (rest.dropWhile (fun c => c ≠ '}')).drop 2 := by
          conv_lhs => rw [← List.take_append_drop 2 (rest.dropWhile (fun c => c ≠ '}'))]
          rw [hok.2]
        have hdecomp : ('{' :: '{' :: rest : List Char)
            = phLit (rest.takeWhile (fun c => c ≠ '}'))
              ++ (rest.dropWhile (fun c => c ≠ '}')).drop 2 := by
          conv_lhs => rw [show rest = rest.takeWhile (fun c => c ≠ '}')
              ++ rest.dropWhile (fun c => c ≠ '}')
            from (List.takeWhile_append_dropWhile (fun c => c ≠ '}') rest).symm]
          rw [hafter]
          simp [phLit]
        have hlen' : rest.length + 2 ≤ fuel + 1 := by simpa using hlen
        have hlen2 : ((rest.dropWhile (fun c => c ≠ '}')).drop 2).length ≤ fuel := by
          rw [List.length_drop]
          omega
        rw [scanPHGo_match_eq fuel rest hok, fillSpecGo_match_eq row fuel rest hok]
        rw [List.foldl_cons]
        rw [show (P ++ '{' :: '{' :: rest : List Char)
            = P ++ (phLit (rest.takeWhile (fun c => c ≠ '}'))
              ++ (rest.dropWhile (fun c => c ≠ '}')).drop 2) from by rw [← hdecomp]]
        rw [replaceFirst_append_left (phLit (rest.takeWhile (fun c => c ≠ '}')))
          (substValue row (rest.takeWhile (fun c => c ≠ '}'))) _ rfl hsub2 P _ hP]
        rw [replaceFirst_head (phLit (rest.takeWhile (fun c => c ≠ '}')))
          (substValue row (rest.takeWhile (fun c => c ≠ '}'))) '{' _ rfl hsub2 _]
        rw [show P ++ (substValue row (rest.takeWhile (fun c => c ≠ '}'))
            ++ (rest.dropWhile (fun c => c ≠ '}')).drop 2)
            = (P ++ substValue row (rest.takeWhile (fun c => c ≠ '}')))
              ++ (rest.dropWhile (fun c => c ≠ '}')).drop 2 from by simp]
        rw [ih ((rest.dropWhile (fun c => c ≠ '}')).drop 2)
          (P ++ substValue row (rest.takeWhile (fun c => c ≠ '}'))) hlen2
          (by
            intro hmem
            rcases List.mem_append.mp hmem with hm | hm
            · exact hP hm
            · exact hsub1 hm) hcl2]
        simp
      · obtain ⟨⟨hc1l, hc1r⟩, hcl2⟩ := cleanGo_nomatch_elim fuel c1 c2 rest hbb hclean
        rw [scanPHGo_nomatch_eq fuel c1 c2 rest hbb,
          fillSpecGo_nomatch_eq row fuel c1 c2 rest hbb]
        rw [show (P ++ c1 :: c2 :: rest : List Char) = (P ++ [c1]) ++ (c2 :: rest) from by simp]
        rw [ih (c2 :: rest) (P ++ [c1]) (by simpa using Nat.le_of_succ_le_succ (by simpa using hlen))
          (by
            simp [List.mem_append, hP]
            exact fun he => hc1l he.symm) hcl2]
        simp

/-- C5 (amended): on a clean template — every brace belongs to a
well-formed `\x7b\x7bname\x7d\x7d` placeholder — and a row whose values
contain no `\x7b` and no `$` character, `fillPromptTemplate`
substitutes every placeholder occurrence exactly as specified: the
occurrence is replaced in place by the row value under the trimmed
name, or by the empty string when that field is absent; the function
is pure and total, never throwing.  (Without those restrictions a
value containing a later placeholder's literal text is consumed by
that placeholder's replacement — see the counterexample — and a `$` in
a value triggers the JS replacement-pattern escapes.) -/
theorem fillPromptTemplate_per_occurrence (template : String) (row : Row)
    (hclean : cleanTemplate template = true)
    (hrow : ∀ kv ∈ row, ¬ '{' ∈ (kv.2 : String).toList ∧ ¬ '$' ∈ (kv.2 : String).toList) :
    fillPromptTemplate template row = fillSpec template row := by
  unfold cleanTemplate at hclean
  unfold fillPromptTemplate fillSpec scanPH
  congr 1
  have h := fill_go_spec row hrow template.toList.length template.toList []
    le_rfl (by simp) hclean
  simpa using h

/-- Witness for C5: a concrete clean template and brace-free row agree
with per-occurrence substitution and produce the expected text. -/
theorem fillPromptTemplate_per_occurrence_witness :
    fillPromptTemplate "Describe \x7b\x7bname\x7d\x7d from \x7b\x7b country \x7d\x7d!"
        [("name", "Ada"), ("country", "UK")]
      = fillSpec "Describe \x7b\x7bname\x7d\x7d from \x7b\x7b country \x7d\x7d!"
        [("name", "Ada"), ("country", "UK")]
      ∧ fillSpec "Describe \x7b\x7bname\x7d\x7d from \x7b\x7b country \x7d\x7d!"
        [("name", "Ada"), ("country", "UK")] = "Describe Ada from UK!" :=
  ⟨fillPromptTemplate_per_occurrence
      "Describe \x7b\x7bname\x7d\x7d from \x7b\x7b country \x7d\x7d!"
      [("name", "Ada"), ("country", "UK")] (by decide) (by decide),
    by decide⟩

/-- A template with no matches is returned unchanged by the spec-side
filler. -/
theorem fillSpecGo_of_scan_nil (row : Row) :
    ∀ (fuel : Nat) (cs : List Char), scanPHGo fuel cs = [] →
      fillSpecGo row fuel cs = cs := by
  intro fuel
  induction fuel with
  | zero => intro cs _; rfl
  | succ fuel ih =>
    intro cs h
    match cs with
    | [] => rfl
    | [c] => rfl
    | c1 :: c2 :: rest =>
      by_cases hbb : c1 = '{' ∧ c2 = '{'
      · obtain ⟨rfl, rfl⟩ := hbb
        by_cases hok : rest.takeWhile (fun c => c ≠ '}') ≠ []
            ∧ (rest.dropWhile (fun c => c ≠ '}')).take 2 = ['}', '}']
        · rw [scanPHGo_match_eq fuel rest hok] at h
          simp at h
        · rw [scanPHGo_badmatch_eq fuel rest hok] at h
          rw [fillSpecGo_badmatch_eq row fuel rest hok, ih _ h]
      · rw [scanPHGo_nomatch_eq fuel c1 c2 rest hbb] at h
        rw [fillSpecGo_nomatch_eq row fuel c1 c2 rest hbb, ih _ h]

/-- When the scan finds exactly one occurrence, replacing the first
occurrence of its literal equals per-occurrence substitution: the
match position is the leftmost occurrence of the literal, and the
substituted value is inserted verbatim. -/
theorem replaceFirst_single_scan (row : Row) (nm : List Char)
    (hrep : ¬ '$' ∈ substValue row nm) :
    ∀ (fuel : Nat) (cs : List Char), scanPHGo fuel cs = [nm] →
      replaceFirst cs (phLit nm) (substValue row nm) = fillSpecGo row fuel cs := by
  intro fuel
  induction fuel with
  | zero => intro cs h; simp [scanPHGo] at h
  | succ fuel ih =>
    intro cs h
    match cs with
    | [] => simp [scanPHGo] at h
    | [c] => simp [scanPHGo] at h
    | c1 :: c2 :: rest =>
      have hwf : nm ≠ [] ∧ ∀ c ∈ nm, c ≠ '}' := by
        apply scanPHGo_names_wf (fuel + 1) (c1 :: c2 :: rest) nm
        rw [h]
        simp
      by_cases hbb : c1 = '{' ∧ c2 = '{'
      · obtain ⟨rfl, rfl⟩ := hbb
        by_cases hok : rest.takeWhile (fun c => c ≠ '}') ≠ []
            ∧ (rest.dropWhile (fun c => c ≠ '}')).take 2 = ['}', '}']
        · rw [scanPHGo_match_eq fuel rest hok] at h
          obtain ⟨hname, hrest⟩ := List.cons_eq_cons.mp h
          have hafter : rest.dropWhile (fun c => c ≠ '}')
              = ['}', '}'] ++ (rest.dropWhile (fun c => c ≠ '}')).drop 2 := by
            conv_lhs => rw [← List.take_append_drop 2 (rest.dropWhile (fun c => c ≠ '}'))]
            rw [hok.2]
          have hdecomp : ('{' :: '{' :: rest : List Char)
              = phLit nm ++ (rest.dropWhile (fun c => c ≠ '}')).drop 2 := by
            conv_lhs => rw [show rest = rest.takeWhile (fun c => c ≠ '}')
                ++ rest.dropWhile (fun c => c ≠ '}')
              from (List.takeWhile_append_dropWhile (fun c => c ≠ '}') rest).symm]
            rw [hafter, hname]
            simp [phLit]
          rw [fillSpecGo_match_eq row fuel rest hok, hname,
            fillSpecGo_of_scan_nil row fuel _ hrest]
          conv_lhs => rw [hdecomp]
          rw [replaceFirst_head (phLit nm) (substValue row nm) '{' _ rfl hrep _]
        · rw [scanPHGo_badmatch_eq fuel rest hok] at h
          have hpre : lHasPre (phLit nm) ('{' :: '{' :: rest) = false := by
            cases hp : lHasPre (phLit nm) ('{' :: '{' :: rest) with
            | false => rfl
            | true =>
              exfalso
              obtain ⟨t, ht⟩ := (lHasPre_iff_exists (phLit nm) ('{' :: '{' :: rest)).mp hp
              have hrest_eq : rest = (nm ++ ['}', '}']) ++ t := by
                have : ('{' :: '{' :: rest : List Char)
                    = '{' :: '{' :: ((nm ++ ['}', '}']) ++ t) := by
                  rw [ht]
                  simp [phLit]
                exact (List.cons_eq_cons.mp ((List.cons_eq_cons.mp this).2)).2
              apply hok
              have htw := takeWhile_dropWhile_append (fun c => c ≠ '}') nm '}'
                (['}'] ++ t)
                (fun a ha => by simpa using hwf.2 a ha) (by simp)
              constructor
              · rw [hrest_eq]
                rw [show (nm ++ ['}', '}']) ++ t = nm ++ '}' :: (['}'] ++ t) from by simp]
                rw [htw.1]
                exact hwf.1
              · rw [hrest_eq]
                rw [show (nm ++ ['}', '}']) ++ t = nm ++ '}' :: (['}'] ++ t) from by simp]
                rw [htw.2]
                simp
          rw [replaceFirst_cons_of_not_pre _ _ _ _ hpre hrep]
          rw [fillSpecGo_badmatch_eq row fuel rest hok]
          rw [ih ('{' :: rest) h]
      · rw [scanPHGo_nomatch_eq fuel c1 c2 rest hbb] at h
        have hpre : lHasPre (phLit nm) (c1 :: c2 :: rest) = false := by
          cases hp : lHasPre (phLit nm) (c1 :: c2 :: rest) with
          | false => rfl
          | true =>
            exfalso
            obtain ⟨t, ht⟩ := (lHasPre_iff_exists (phLit nm) (c1 :: c2 :: rest)).mp hp
            apply hbb
            have hx : c1 = '{' ∧ c2 = '{' ∧ rest = nm ++ '}' :: '}' :: t := by
              simpa [phLit] using ht
            exact ⟨hx.1, hx.2.1⟩
        rw [replaceFirst_cons_of_not_pre _ _ _ _ hpre hrep]
        rw [fillSpecGo_nomatch_eq row fuel c1 c2 rest hbb]
        rw [ih (c2 :: rest) h]

/-- C6 (amended): no new placeholders are ever discovered in
substituted text — the scan runs over the original template only, left
to right — and in the single-occurrence case no re-expansion of
introduced text can happen either: for a template whose scan captures
exactly one `\x7b\x7bname\x7d\x7d` occurrence and a row whose values
contain no `$`, the filled result equals per-occurrence substitution,
so a substituted value is inserted verbatim even if it itself contains
placeholder syntax.  (With several occurrences a later replacement
targets the leftmost occurrence of its literal in the partially
substituted string and can consume text introduced by an earlier
substitution — see the counterexample.) -/
theorem fillPromptTemplate_single_no_reexpansion (template : String) (row : Row)
    (nm : List Char) (hscan : scanPH template.toList = [nm])
    (hrow : ∀ kv ∈ row, ¬ '$' ∈ (kv.2 : String).toList) :
    fillPromptTemplate template row = fillSpec template row := by
  unfold fillPromptTemplate fillSpec scanPH
  unfold scanPH at hscan
  rw [hscan]
  simp only [List.foldl_cons, List.foldl_nil]
  congr 1
  exact replaceFirst_single_scan row nm (substValue_not_mem row nm '$' hrow)
    template.toList.length template.toList hscan

/-- Witness for C6: a single-placeholder template whose value contains
placeholder syntax is filled by verbatim insertion, with no expansion
of the inserted text. -/
theorem fillPromptTemplate_single_no_reexpansion_witness :
    fillPromptTemplate "ask \x7b\x7bq\x7d\x7d now" [("q", "\x7b\x7bq\x7d\x7d raw")]
      = fillSpec "ask \x7b\x7bq\x7d\x7d now" [("q", "\x7b\x7bq\x7d\x7d raw")]
      ∧ fillSpec "ask \x7b\x7bq\x7d\x7d now" [("q", "\x7b\x7bq\x7d\x7d raw")]
        = "ask \x7b\x7bq\x7d\x7d raw now" :=
  ⟨fillPromptTemplate_single_no_reexpansion "ask \x7b\x7bq\x7d\x7d now"
      [("q", "\x7b\x7bq\x7d\x7d raw")] ['q'] (by decide) (by decide),
    by decide⟩
